import Mathlib

/-!
Anvil struct chainer (`include/misc/struct_chainer.h`).

A shallow embedding of `Anvil::StructChainer`, `Anvil::StructChain` and
`Anvil::StructChainVector`.

* A `std::vector<uint8_t>` is a `List Byte`.
* `uint32_t` values (`StructID`, `m_structs_size`, `n_structs`) are natural
  numbers reduced modulo `2^32` at every place where the C++ code truncates.
* `size_t` values (`sizeof`, `n_bytes_used`) are natural numbers.
* Pointers are natural numbers (addresses); `nullptr` is `0`.  A pointer
  stored inside a byte buffer occupies `ptr_size` bytes, least significant
  byte first.
* A call that can abort returns an `Except Fault _`; calls that mutate the
  builder also return the builder as it is when the call ends.
* A store that a caller makes through a pointer replaces the bytes at the stored
  addresses in every object that occupies them (`store_into`): the buffer of a
  chain is at its `raw_data_addr`, the elements of `root_structs` are at an
  address that is a parameter.
-/

namespace Anvil

/-- One `uint8_t`. -/
abbrev Byte := UInt8

/-- The C++ `typedef uint32_t StructID`. -/
abbrev StructID := Nat

/-- Number of values of a `uint32_t`. -/
def UINT32_RANGE : Nat := 2 ^ 32

/-- Ways in which a call can stop without producing its result. -/
inductive Fault
  /-- a failed `anvil_assert` / `anvil_assert_fail` of the builder -/
  | InvariantViolation
  /-- a failed range assertion of `get_struct_with_id` -/
  | OutOfBounds
  /-- the `std::out_of_range` exception thrown by `std::vector::at` -/
  | out_of_range
  /-- a raw `memcpy` / pointer store that leaves the destination vector -/
  | access_violation
deriving DecidableEq, Repr

/-- Modelled from the spec: `anvil_assert` (defined in a header that is not part
of the sources at hand).  A violated assertion aborts the operation at the point
of violation; `f` is the fault class the specification gives to that assertion. -/
def anvil_assert (cond : Bool) (f : Fault) : Except Fault Unit :=
  if cond then .ok () else .error f

/-- Modelled from the spec: `anvil_assert_fail` (defined in the same header as
`anvil_assert`): an assertion that always fails. -/
def anvil_assert_fail (f : Fault) : Except Fault Unit :=
  .error f

/-- Modelled from the spec: `VkStructHeader` (declared in `types.h`, which is not
part of the sources at hand): every chained record starts with a header holding
a type tag and a forward pointer `next_ptr`.  `next_off` is the byte offset of
`next_ptr` inside the header and `ptr_size` the size of a pointer. -/
structure HeaderLayout where
  next_off : Nat
  ptr_size : Nat
  ptr_size_pos : 0 < ptr_size

/-- Object representation of a pointer: `n` bytes, least significant first. -/
def encode_ptr : Nat → Nat → List Byte
  | 0, _ => []
  | n + 1, p => UInt8.ofNat (p % 256) :: encode_ptr n (p / 256)

/-- Value of a pointer object representation. -/
def decode_ptr : List Byte → Nat
  | [] => 0
  | b :: bs => b.toNat + 256 * decode_ptr bs

/-- The `next_ptr` / `pNext` field of the record that starts at byte `off` of `buf`. -/
def read_next_ptr (L : HeaderLayout) (buf : List Byte) (off : Nat) : Nat :=
  decode_ptr ((buf.drop (off + L.next_off)).take L.ptr_size)

/-- A C++ struct type: its identity and its `sizeof`. -/
structure CType where
  tag : Nat
  size : Nat
deriving DecidableEq, Repr

/-- A struct value passed to `append_struct`: its static type and its object
representation, which has exactly `sizeof` bytes and starts with the header. -/
structure Record (L : HeaderLayout) where
  ty : CType
  bytes : List Byte
  size_eq : bytes.length = ty.size
  has_header : L.next_off + L.ptr_size ≤ ty.size

/-- The C++ `sizeof(in_struct)`. -/
def Record.sizeof {L : HeaderLayout} (r : Record L) : Nat := r.ty.size

/-- The C++ `in_struct.pNext`. -/
def Record.pNext {L : HeaderLayout} (r : Record L) : Nat := read_next_ptr L r.bytes 0

/-- Raw write of `src` into `dst` starting at byte `off` (`memcpy`, or a store
through a reinterpreted pointer).  Leaving `dst` is a fault. -/
def mem_write (dst : List Byte) (off : Nat) (src : List Byte) : Except Fault (List Byte) :=
  if off + src.length ≤ dst.length then
    .ok (dst.take off ++ src ++ dst.drop (off + src.length))
  else
    .error .access_violation

/-- The C++ `struct StructChain`.  `raw_data_addr` is the address of the storage
of `raw_data`, that is `&raw_data.at(0)`. -/
structure StructChain where
  raw_data : List Byte
  raw_data_addr : Nat
  root_struct_ptr : Nat
deriving DecidableEq, Repr

/-- The constructor `StructChain(const uint32_t& in_raw_data_size)`; `addr` is the
address at which the allocator places the storage of `raw_data`. -/
def StructChain.ctor (in_raw_data_size : Nat) (addr : Nat) : StructChain :=
  { raw_data := List.replicate in_raw_data_size 0
    raw_data_addr := addr
    root_struct_ptr := 0 }

/-- The C++ `StructChain::get_struct_with_id`: the address of the view. -/
def StructChain.get_struct_with_id (self : StructChain) (in_id : StructID) : Except Fault Nat :=
  match anvil_assert (decide (in_id < self.raw_data.length)) .OutOfBounds with
  | .error f => .error f
  | .ok _ =>
    -- `&raw_data.at(0) + in_id`
    if self.raw_data.length = 0 then .error .out_of_range
    else .ok (self.raw_data_addr + in_id)

/-- The C++ `StructChain::get_root_struct`. -/
def StructChain.get_root_struct (self : StructChain) : Except Fault Nat :=
  if self.raw_data.length = 0 then .error .out_of_range
  else .ok self.raw_data_addr

/-- Reading `n` bytes through a pointer `ptr` into the chain's buffer. -/
def StructChain.read_bytes (self : StructChain) (ptr : Nat) (n : Nat) : List Byte :=
  (self.raw_data.drop (ptr - self.raw_data_addr)).take n

/-- The private members of the C++ `class StructChainer`. -/
structure StructChainer where
  m_structs : List (List Byte)
  m_structs_size : Nat
deriving DecidableEq, Repr

/-- The constructor `StructChainer()`. -/
def StructChainer.ctor : StructChainer :=
  { m_structs := [], m_structs_size := 0 }

/-- The C++ `StructChainer<StructType>::append_struct`.  The second component is
the builder when the call ends. -/
def StructChainer.append_struct (L : HeaderLayout) (StructType : CType)
    (self : StructChainer) (in_struct : Record L) : Except Fault StructID × StructChainer :=
  let pre_call_structs_size := self.m_structs_size
  match anvil_assert (in_struct.pNext == 0) .InvariantViolation with
  | .error f => (.error f, self)
  | .ok _ =>
    /- Zeroth item appended to the chain must be of StructType type! -/
    if self.m_structs_size = 0 ∧ in_struct.sizeof ≠ StructType.size then
      match anvil_assert_fail .InvariantViolation with
      | .error f => (.error f, self)
      | .ok _ => (.error .InvariantViolation, self)
    else if in_struct.sizeof = 0 then
      -- `struct_raw_data.at(0)` on an empty vector
      (.error .out_of_range, self)
    else
      let struct_raw_data := in_struct.bytes
      (.ok pre_call_structs_size,
       { m_structs := self.m_structs ++ [struct_raw_data]
         m_structs_size := (self.m_structs_size + in_struct.sizeof) % UINT32_RANGE })

/-- The `for` loop of `create_chain`.  The first argument counts the iterations
still to run, so that the loop counter is `n_struct = n_structs - remaining`. -/
def StructChainer.create_chain_loop (L : HeaderLayout) (self : StructChainer) (addr : Nat)
    (n_structs : Nat) : Nat → List Byte → Nat → Except Fault (List Byte)
  | 0, raw_data, _ => .ok raw_data
  | remaining + 1, raw_data, n_bytes_used =>
    let n_struct := n_structs - (remaining + 1)
    match self.m_structs[n_struct]? with
    | none => .error .out_of_range
    | some current_struct_data =>
      let current_struct_data_size := current_struct_data.length
      if raw_data.length ≤ n_bytes_used then .error .out_of_range
      else if current_struct_data_size = 0 then .error .out_of_range
      else
        match mem_write raw_data n_bytes_used current_struct_data with
        | .error f => .error f
        | .ok copied =>
          if n_struct ≠ (n_structs + UINT32_RANGE - 1) % UINT32_RANGE then
            -- `header_ptr` is `&raw_data.at(n_bytes_used)`
            if copied.length ≤ n_bytes_used then .error .out_of_range
            else
            match mem_write copied (n_bytes_used + L.next_off)
                (encode_ptr L.ptr_size (addr + n_bytes_used + current_struct_data_size)) with
            | .error f => .error f
            | .ok patched =>
              StructChainer.create_chain_loop L self addr n_structs remaining patched
                (n_bytes_used + current_struct_data_size)
          else
            StructChainer.create_chain_loop L self addr n_structs remaining copied
              (n_bytes_used + current_struct_data_size)

/-- The C++ `StructChainer<StructType>::create_chain`; `addr` is the address at
which the allocator places the buffer of the new chain. -/
def StructChainer.create_chain (L : HeaderLayout) (self : StructChainer) (addr : Nat) :
    Except Fault StructChain :=
  let n_structs := self.m_structs.length % UINT32_RANGE
  if self.m_structs.length = 0 then
    match anvil_assert (decide (self.m_structs.length > 0)) .InvariantViolation with
    | .error f => .error f
    | .ok _ => .error .InvariantViolation
  else
    let result := StructChain.ctor self.m_structs_size addr
    match StructChainer.create_chain_loop L self addr n_structs n_structs result.raw_data 0 with
    | .error f => .error f
    | .ok raw_data =>
      if raw_data.length = 0 then .error .out_of_range
      else
        .ok { raw_data := raw_data
              raw_data_addr := result.raw_data_addr
              root_struct_ptr := result.raw_data_addr }

/-- A caller that appends the records of a list one after the other and stops
at the first fault; on success it holds the returned ids and the builder. -/
def StructChainer.append_structs (L : HeaderLayout) (StructType : CType) :
    StructChainer → List (Record L) → Except Fault (List StructID × StructChainer)
  | self, [] => .ok ([], self)
  | self, r :: rs =>
    match StructChainer.append_struct L StructType self r with
    | (.error f, _) => .error f
    | (.ok id, self1) =>
      match StructChainer.append_structs L StructType self1 rs with
      | .error f => .error f
      | .ok (ids, self2) => .ok (id :: ids, self2)

/-- Sum of the `sizeof` of a list of records. -/
def total_size {L : HeaderLayout} (rs : List (Record L)) : Nat :=
  (rs.map Record.sizeof).sum

/-! ## Concrete data used by the worked examples -/

/-- A 32-bit header: 4-byte type tag, then a 4-byte `next_ptr`. -/
def layout32 : HeaderLayout := ⟨4, 4, by decide⟩

/-- A 64-bit header: 4-byte type tag, 4 bytes of padding, 8-byte `next_ptr`. -/
def layout64 : HeaderLayout := ⟨8, 8, by decide⟩

/-- Root type of the scenario: 16 bytes. -/
def tyA : CType := ⟨0, 16⟩
/-- Extension type of the scenario: 24 bytes. -/
def tyB : CType := ⟨1, 24⟩
/-- Extension type of the scenario: 8 bytes. -/
def tyC : CType := ⟨2, 8⟩

/-- Record A: tag 1, `pNext` unset, payload bytes 0xA0.. -/
def recA : Record layout32 :=
  ⟨tyA, [1, 0, 0, 0, 0, 0, 0, 0, 0xA0, 0xA1, 0xA2, 0xA3, 0xA4, 0xA5, 0xA6, 0xA7], by decide, by decide⟩

/-- Record B: tag 2, `pNext` unset. -/
def recB : Record layout32 :=
  ⟨tyB, [2, 0, 0, 0, 0, 0, 0, 0, 0xB0, 0xB1, 0xB2, 0xB3, 0xB4, 0xB5, 0xB6, 0xB7,
         0xB8, 0xB9, 0xBA, 0xBB, 0xBC, 0xBD, 0xBE, 0xBF], by decide, by decide⟩

/-- Record C: tag 3, `pNext` unset, nothing but the header. -/
def recC : Record layout32 :=
  ⟨tyC, [3, 0, 0, 0, 0, 0, 0, 0], by decide, by decide⟩

/-- The bytes of a record with its `next_ptr` field overwritten by the pointer `p`. -/
def patch_next (L : HeaderLayout) (rec : List Byte) (p : Nat) : List Byte :=
  rec.take L.next_off ++ encode_ptr L.ptr_size p ++ rec.drop (L.next_off + L.ptr_size)

/-- The records laid out back to back from byte `off` of a buffer placed at
`addr`, each one but the last with its `next_ptr` set to the address of its
successor. -/
def linked (L : HeaderLayout) (addr : Nat) : Nat → List (List Byte) → List Byte
  | _, [] => []
  | off, cur :: rest =>
    (if rest.isEmpty then cur else patch_next L cur (addr + off + cur.length))
      ++ linked L addr (off + cur.length) rest

/-- A record of type `ty` all of whose bytes are zero (its `pNext` is unset). -/
def zero_record (L : HeaderLayout) (ty : CType) (h : L.next_off + L.ptr_size ≤ ty.size) :
    Record L :=
  ⟨ty, List.replicate ty.size 0, List.length_replicate _ _, h⟩

/-- A root type with a 16-byte representation on a 64-bit platform. -/
def tyRoot64 : CType := ⟨0, 16⟩

/-- A value of `tyRoot64`. -/
def recRoot64 : Record layout64 := zero_record layout64 tyRoot64 (by decide)

/-- An extension type with a 24-byte representation on a 64-bit platform. -/
def tyExt64 : CType := ⟨1, 24⟩

/-- A value of `tyExt64`. -/
def recExt64 : Record layout64 := zero_record layout64 tyExt64 (by decide)

/-- A root type whose representation takes 2 GiB. -/
def tyHuge : CType := ⟨0, 2 ^ 31⟩

/-- A value of `tyHuge`. -/
def recHuge : Record layout64 := zero_record layout64 tyHuge (by decide)

/-- The three records of the scenario, in append order. -/
def scenario : List (Record layout32) := [recA, recB, recC]

/-- The builder after the three appends of the scenario. -/
def scenario_builder : StructChainer :=
  ⟨[recA.bytes, recB.bytes, recC.bytes], 48⟩

/-- A record of a type that is not the root type `tyA` but has its size. -/
def recSameSize : Record layout32 :=
  ⟨⟨7, 16⟩, [9, 0, 0, 0, 0, 0, 0, 0, 1, 2, 3, 4, 5, 6, 7, 8], by decide, by decide⟩

/-- A record of the root type `tyA` whose `pNext` is already set (to 0x2000). -/
def recLinked : Record layout32 :=
  ⟨tyA, [1, 0, 0, 0, 0, 0x20, 0, 0, 0, 0, 0, 0, 0, 0, 0, 0], by decide, by decide⟩

/-! ## The collection of chains, and the walk of a consumer -/

/-- Raw read of `n` bytes of `buf` starting at byte `off` (the copy of an object
out of a buffer through a reinterpreted pointer).  Leaving `buf` is a fault. -/
def mem_read (buf : List Byte) (off n : Nat) : Except Fault (List Byte) :=
  if off + n ≤ buf.length then
    .ok ((buf.drop off).take n)
  else
    .error .access_violation

/-- The C++ `StructChainer<StructType>::get_root_struct`; the pointer it returns
is represented by the staged record it points to. -/
def StructChainer.get_root_struct (self : StructChainer) : Except Fault (List Byte) :=
  match anvil_assert (decide (self.m_structs.length > 0)) .InvariantViolation with
  | .error f => .error f
  | .ok _ =>
    -- `&m_structs.at(0).at(0)`
    match self.m_structs[0]? with
    | none => .error .out_of_range
    | some root => if root.length = 0 then .error .out_of_range else .ok root

/-- The private members of the C++ `struct StructChainVector`.  An element of
`root_structs` is a `StructType` object, held as its `sizeof(StructType)` bytes. -/
structure StructChainVector where
  root_structs : List (List Byte)
  struct_chain_ptrs : List StructChain
deriving DecidableEq, Repr

/-- The implicit default constructor of `StructChainVector`. -/
def StructChainVector.ctor : StructChainVector :=
  { root_structs := [], struct_chain_ptrs := [] }

/-- The C++ `StructChainVector<StructType>::append_struct_chain`.  The second
component is the collection when the call ends. -/
def StructChainVector.append_struct_chain (StructType : CType) (self : StructChainVector)
    (inout_struct_chain_ptr : StructChain) : Except Fault Unit × StructChainVector :=
  match inout_struct_chain_ptr.get_root_struct with
  | .error f => (.error f, self)
  | .ok root_ptr =>
    -- `*root_ptr`: the `StructType` object copied out of the buffer
    match mem_read inout_struct_chain_ptr.raw_data
        (root_ptr - inout_struct_chain_ptr.raw_data_addr) StructType.size with
    | .error f => (.error f, self)
    | .ok root =>
      (.ok (),
       { root_structs := self.root_structs ++ [root]
         struct_chain_ptrs := self.struct_chain_ptrs ++ [inout_struct_chain_ptr] })

/-- The C++ `StructChainVector::get_n_structs`, a `uint32_t`. -/
def StructChainVector.get_n_structs (self : StructChainVector) : Nat :=
  self.root_structs.length % UINT32_RANGE

/-- The C++ `StructChainVector::get_root_structs`; the pointer `&root_structs.at(0)`
is represented by the array it points to. -/
def StructChainVector.get_root_structs (self : StructChainVector) :
    Except Fault (List (List Byte)) :=
  if self.root_structs.length = 0 then .error .out_of_range
  else .ok self.root_structs

/-- A caller that inserts the chains of a list one after the other and stops at
the first fault. -/
def StructChainVector.append_struct_chains (StructType : CType) :
    StructChainVector → List StructChain → Except Fault StructChainVector
  | self, [] => .ok self
  | self, c :: cs =>
    match StructChainVector.append_struct_chain StructType self c with
    | (.error f, _) => .error f
    | (.ok _, self1) => StructChainVector.append_struct_chains StructType self1 cs

/-- The bytes of an object that occupies the addresses from `base` on, after the bytes `src`
have been stored at the addresses from `addr` on: the bytes of the object whose address
lies in the stored range are replaced, the others are kept. -/
def store_into (addr : Nat) (src : List Byte) (base : Nat) (obj : List Byte) : List Byte :=
  (List.range obj.length).map (fun i =>
    if addr ≤ base + i ∧ base + i < addr + src.length then src.getD (base + i - addr) 0
    else obj.getD i 0)

/-- The elements of an array whose first element is at address `base` and whose elements
are `elem_size` bytes apart, after the same store. -/
def store_into_array (addr : Nat) (src : List Byte) (elem_size : Nat) :
    Nat → List (List Byte) → List (List Byte)
  | _, [] => []
  | base, e :: es =>
    store_into addr src base e :: store_into_array addr src elem_size (base + elem_size) es

/-- The collection after a caller has stored the bytes `src` at address `addr`.
`root_structs_addr` is the address at which the vector `root_structs` keeps its elements
(what `get_root_structs()` returns); the buffer of each owned chain is at its
`raw_data_addr`.  Every byte of these objects whose address is in the stored range is
replaced, whichever object it belongs to. -/
def StructChainVector.after_store (StructType : CType) (self : StructChainVector)
    (root_structs_addr addr : Nat) (src : List Byte) : StructChainVector :=
  { root_structs :=
      store_into_array addr src StructType.size root_structs_addr self.root_structs
    struct_chain_ptrs :=
      self.struct_chain_ptrs.map (fun chain =>
        { chain with raw_data := store_into addr src chain.raw_data_addr chain.raw_data }) }

/-- A consumer's walk along the forward pointers, starting at the record at
address `ptr`: the byte offsets of the records it visits, or `none` when the
walk leaves the buffer or is not over after `fuel` records. -/
def chain_walk (L : HeaderLayout) (c : StructChain) : Nat → Nat → Option (List Nat)
  | 0, _ => none
  | fuel + 1, ptr =>
    if ptr < c.raw_data_addr then none
    else if c.raw_data.length < (ptr - c.raw_data_addr) + L.next_off + L.ptr_size then none
    else
      let next := read_next_ptr L c.raw_data (ptr - c.raw_data_addr)
      if next = 0 then some [ptr - c.raw_data_addr]
      else (chain_walk L c fuel next).map (fun rest => (ptr - c.raw_data_addr) :: rest)

/-- The chain of the scenario, in a buffer placed at 0x1000. -/
def scenario_chain : StructChain :=
  { raw_data := [1, 0, 0, 0, 0x10, 0x10, 0, 0, 0xA0, 0xA1, 0xA2, 0xA3, 0xA4, 0xA5, 0xA6, 0xA7,
                 2, 0, 0, 0, 0x28, 0x10, 0, 0, 0xB0, 0xB1, 0xB2, 0xB3, 0xB4, 0xB5, 0xB6, 0xB7,
                 0xB8, 0xB9, 0xBA, 0xBB, 0xBC, 0xBD, 0xBE, 0xBF, 3, 0, 0, 0, 0, 0, 0, 0]
    raw_data_addr := 0x1000
    root_struct_ptr := 0x1000 }

/-- A chain that holds the single record C of the scenario, in a buffer at 0x3000. -/
def single_chain : StructChain :=
  { raw_data := [3, 0, 0, 0, 0, 0, 0, 0]
    raw_data_addr := 0x3000
    root_struct_ptr := 0x3000 }

/-- A root-type record of a 64-bit platform with a non-zero type tag. -/
def recTagged64 : Record layout64 :=
  ⟨tyRoot64, [1, 0, 0, 0, 0, 0, 0, 0, 0, 0, 0, 0, 0, 0, 0, 0], by decide, by decide⟩

/-! ## Pointer representation and `append_struct` -/

theorem encode_ptr_length (n p : Nat) : (encode_ptr n p).length = n := by
  induction n generalizing p with
  | zero => rfl
  | succ n ih => simp [encode_ptr, ih]

theorem decode_encode_ptr (n p : Nat) : decode_ptr (encode_ptr n p) = p % 256 ^ n := by
  induction n generalizing p with
  | zero => simp [encode_ptr, decode_ptr, Nat.mod_one]
  | succ n ih =>
    have hb : (UInt8.ofNat (p % 256)).toNat = p % 256 := by
      simp [UInt8.toNat, UInt8.ofNat, Fin.ofNat]
    simp only [encode_ptr, decode_ptr, hb, ih]
    rw [pow_succ, Nat.mul_comm (256 ^ n) 256, Nat.mod_mul]

theorem decode_ptr_replicate_zero (n : Nat) : decode_ptr (List.replicate n 0) = 0 := by
  induction n with
  | zero => rfl
  | succ n ih => simp [List.replicate_succ, decode_ptr, ih]

theorem append_struct_eq (L : HeaderLayout) (T : CType) (self : StructChainer) (r : Record L) :
    StructChainer.append_struct L T self r =
      if r.pNext ≠ 0 ∨ (self.m_structs_size = 0 ∧ r.sizeof ≠ T.size) then
        (.error .InvariantViolation, self)
      else
        (.ok self.m_structs_size,
         { m_structs := self.m_structs ++ [r.bytes]
           m_structs_size := (self.m_structs_size + r.sizeof) % UINT32_RANGE }) := by
  have hpos : r.sizeof ≠ 0 := by
    have h1 := r.has_header
    have h2 := L.ptr_size_pos
    unfold Record.sizeof
    omega
  unfold StructChainer.append_struct anvil_assert anvil_assert_fail
  by_cases hp : r.pNext = 0
  · by_cases hs : self.m_structs_size = 0 ∧ r.sizeof ≠ T.size
    · simp [hp, hs]
    · simp [hp, hs, hpos]
  · simp [hp]

theorem total_size_nil {L : HeaderLayout} : total_size ([] : List (Record L)) = 0 := rfl

theorem total_size_cons {L : HeaderLayout} (r : Record L) (rs : List (Record L)) :
    total_size (r :: rs) = r.sizeof + total_size rs := by
  simp [total_size]

/-- Unfolding of one step of `append_structs`. -/
theorem append_structs_cons_ok (L : HeaderLayout) (T : CType) (self : StructChainer)
    (r : Record L) (rs : List (Record L)) (ids : List StructID) (b : StructChainer)
    (h : StructChainer.append_structs L T self (r :: rs) = .ok (ids, b)) :
    r.pNext = 0 ∧ ¬ (self.m_structs_size = 0 ∧ r.sizeof ≠ T.size) ∧
    ∃ ids1, ids = self.m_structs_size :: ids1 ∧
      StructChainer.append_structs L T
        { m_structs := self.m_structs ++ [r.bytes]
          m_structs_size := (self.m_structs_size + r.sizeof) % UINT32_RANGE } rs = .ok (ids1, b) := by
  rw [StructChainer.append_structs, append_struct_eq] at h
  by_cases hc : r.pNext ≠ 0 ∨ (self.m_structs_size = 0 ∧ r.sizeof ≠ T.size)
  · simp [hc] at h
  · rw [if_neg hc] at h
    simp only [] at h
    push_neg at hc
    refine ⟨hc.1, ?_, ?_⟩
    · intro hh; exact hh.2 (hc.2 hh.1)
    · cases hrec : StructChainer.append_structs L T
          { m_structs := self.m_structs ++ [r.bytes]
            m_structs_size := (self.m_structs_size + r.sizeof) % UINT32_RANGE } rs with
      | error f => rw [hrec] at h; simp at h
      | ok p =>
        obtain ⟨ids1, b1⟩ := p
        rw [hrec] at h
        simp only [Except.ok.injEq, Prod.mk.injEq] at h
        exact ⟨ids1, h.1.symm, by rw [h.2]⟩

theorem append_structs_spec (L : HeaderLayout) (T : CType) (rs : List (Record L)) :
    ∀ (self : StructChainer) (ids : List StructID) (b : StructChainer),
      self.m_structs_size < UINT32_RANGE →
      StructChainer.append_structs L T self rs = .ok (ids, b) →
      b.m_structs = self.m_structs ++ rs.map Record.bytes ∧
      b.m_structs_size = (self.m_structs_size + total_size rs) % UINT32_RANGE ∧
      ids.length = rs.length ∧
      (∀ N, N < rs.length →
        ids[N]? = some ((self.m_structs_size + total_size (rs.take N)) % UINT32_RANGE)) ∧
      (∀ r ∈ rs, r.pNext = 0) := by
  induction rs with
  | nil =>
    intro self ids b hlt h
    simp only [StructChainer.append_structs, Except.ok.injEq, Prod.mk.injEq] at h
    obtain ⟨h1, h2⟩ := h
    subst h1 h2
    simp [total_size_nil, Nat.mod_eq_of_lt hlt]
  | cons r rs ih =>
    intro self ids b hlt h
    obtain ⟨hp, _, ids1, hids, hrest⟩ := append_structs_cons_ok L T self r rs ids b h
    have hlt1 : (self.m_structs_size + r.sizeof) % UINT32_RANGE < UINT32_RANGE :=
      Nat.mod_lt _ (by decide)
    obtain ⟨h1, h2, h3, h4, h5⟩ := ih _ ids1 b hlt1 hrest
    subst hids
    refine ⟨?_, ?_, ?_, ?_, ?_⟩
    · simp [h1]
    · rw [h2, total_size_cons]
      simp only [Nat.mod_add_mod, Nat.add_assoc]
    · simp [h3]
    · intro N hN
      cases N with
      | zero => simp [total_size_nil, Nat.mod_eq_of_lt hlt]
      | succ N =>
        have hN1 : N < rs.length := by simpa using hN
        have := h4 N hN1
        simp only [List.getElem?_cons_succ, List.take_succ_cons, total_size_cons]
        rw [this]
        simp only [Nat.mod_add_mod, Nat.add_assoc]
    · intro x hx
      rcases List.mem_cons.mp hx with rfl | hx
      · exact hp
      · exact h5 x hx

theorem zero_record_pNext (L : HeaderLayout) (ty : CType) (h : L.next_off + L.ptr_size ≤ ty.size) :
    (zero_record L ty h).pNext = 0 := by
  simp only [Record.pNext, read_next_ptr, zero_record, List.drop_replicate, List.take_replicate,
    decode_ptr_replicate_zero]

theorem append_structs_succeeds (L : HeaderLayout) (T : CType) (rs : List (Record L))
    (hrs : ∀ r ∈ rs, r.pNext = 0 ∧ r.sizeof = T.size) :
    ∀ self : StructChainer, ∃ ids b, StructChainer.append_structs L T self rs = .ok (ids, b) := by
  induction rs with
  | nil => intro self; exact ⟨[], self, rfl⟩
  | cons r rs ih =>
    intro self
    obtain ⟨hp, hs⟩ := hrs r (List.mem_cons_self _ _)
    obtain ⟨ids, b, h⟩ := ih (fun x hx => hrs x (List.mem_cons_of_mem _ hx))
      { m_structs := self.m_structs ++ [r.bytes]
        m_structs_size := (self.m_structs_size + r.sizeof) % UINT32_RANGE }
    refine ⟨self.m_structs_size :: ids, b, ?_⟩
    rw [StructChainer.append_structs, append_struct_eq, if_neg (by simp [hp, hs])]
    simp only [h]

/-! ## The copy loop of `create_chain` -/

theorem mem_write_at_end (done rest src : List Byte) (h : src.length ≤ rest.length) :
    mem_write (done ++ rest) done.length src = .ok (done ++ src ++ rest.drop src.length) := by
  unfold mem_write
  have hc : done.length + src.length ≤ (done ++ rest).length := by
    simp only [List.length_append]; omega
  rw [if_pos hc, List.take_left' rfl, List.drop_append]

theorem mem_write_inside (done cur rest e : List Byte) (k : Nat)
    (h : k + e.length ≤ cur.length) :
    mem_write (done ++ cur ++ rest) (done.length + k) e =
      .ok (done ++ (cur.take k ++ e ++ cur.drop (k + e.length)) ++ rest) := by
  unfold mem_write
  have hc : done.length + k + e.length ≤ (done ++ cur ++ rest).length := by
    simp only [List.length_append]; omega
  rw [if_pos hc]
  congr 1
  have h1 : List.take (done.length + k) (done ++ cur ++ rest) = done ++ cur.take k := by
    rw [List.append_assoc, List.take_append, List.take_append_of_le_length (by omega)]
  have h2 : List.drop (done.length + k + e.length) (done ++ cur ++ rest)
      = cur.drop (k + e.length) ++ rest := by
    rw [List.append_assoc, Nat.add_assoc, List.drop_append, List.drop_append_of_le_length (by omega)]
  rw [h1, h2]
  simp only [List.append_assoc]

theorem patch_next_length (L : HeaderLayout) (rec : List Byte) (p : Nat)
    (h : L.next_off + L.ptr_size ≤ rec.length) : (patch_next L rec p).length = rec.length := by
  unfold patch_next
  simp only [List.length_append, List.length_take, List.length_drop, encode_ptr_length]
  omega

theorem create_chain_loop_eq (L : HeaderLayout) (self : StructChainer) (addr n_structs : Nat)
    (hn : n_structs = self.m_structs.length) (hlt : n_structs < UINT32_RANGE)
    (hhdr : ∀ s ∈ self.m_structs, L.next_off + L.ptr_size ≤ s.length) :
    ∀ (remaining : Nat) (done rest : List Byte), remaining ≤ n_structs →
      rest.length = ((self.m_structs.drop (n_structs - remaining)).map List.length).sum →
      StructChainer.create_chain_loop L self addr n_structs remaining (done ++ rest) done.length
        = .ok (done ++ linked L addr done.length (self.m_structs.drop (n_structs - remaining))) := by
  intro remaining
  induction remaining with
  | zero =>
    intro done rest _ hrest
    have hd : self.m_structs.drop (n_structs - 0) = [] := by
      rw [Nat.sub_zero, hn]; exact List.drop_length _
    rw [hd] at hrest ⊢
    have : rest = [] := List.length_eq_zero.mp (by simpa using hrest)
    subst this
    simp [StructChainer.create_chain_loop, linked]
  | succ rem ih =>
    intro done rest hle hrest
    have hidx : n_structs - (rem + 1) < self.m_structs.length := by omega
    have hdrop : self.m_structs.drop (n_structs - (rem + 1))
        = self.m_structs[n_structs - (rem + 1)] :: self.m_structs.drop (n_structs - rem) := by
      rw [List.drop_eq_getElem_cons hidx]
      congr 2
      omega
    have hmem : self.m_structs[n_structs - (rem + 1)] ∈ self.m_structs := List.getElem_mem _
    have hcur := hhdr _ hmem
    have hptr := L.ptr_size_pos
    generalize hcurdef : self.m_structs[n_structs - (rem + 1)] = cur at hdrop hcur
    rw [hdrop] at hrest ⊢
    simp only [List.map_cons, List.sum_cons] at hrest
    have hget : self.m_structs[n_structs - (rem + 1)]? = some cur := by
      rw [List.getElem?_eq_getElem hidx, hcurdef]
    have hlast : (n_structs + UINT32_RANGE - 1) % UINT32_RANGE = n_structs - 1 := by
      have : n_structs + UINT32_RANGE - 1 = (n_structs - 1) + UINT32_RANGE := by omega
      rw [this, Nat.add_mod_right]
      exact Nat.mod_eq_of_lt (by omega)
    have hcopy := mem_write_at_end done rest cur (by omega)
    have hlen1 : ¬ (done ++ rest).length ≤ done.length := by
      simp only [List.length_append]; omega
    have hlen2 : ¬ cur.length = 0 := by omega
    have hrest' : (rest.drop cur.length).length
        = ((self.m_structs.drop (n_structs - rem)).map List.length).sum := by
      rw [List.length_drop]; omega
    unfold StructChainer.create_chain_loop
    simp only [hget, if_neg hlen1, if_neg hlen2, hcopy, hlast]
    by_cases hrem : rem = 0
    · have hc : ¬ (n_structs - (rem + 1) ≠ n_structs - 1) := by
        subst hrem; simp
      rw [if_neg hc]
      have hd : self.m_structs.drop (n_structs - rem) = [] := by
        rw [hrem, Nat.sub_zero, hn]; exact List.drop_length _
      have := ih (done ++ cur) (rest.drop cur.length) (by omega) hrest'
      rw [List.length_append] at this
      rw [this, hd]
      simp [linked]
    · have hc : n_structs - (rem + 1) ≠ n_structs - 1 := by omega
      rw [if_pos hc]
      have hlen3 : ¬ (done ++ cur ++ List.drop cur.length rest).length ≤ done.length := by
        simp only [List.length_append]; omega
      rw [if_neg hlen3]
      have hpatch := mem_write_inside done cur (rest.drop cur.length)
        (encode_ptr L.ptr_size (addr + done.length + cur.length)) L.next_off
        (by rw [encode_ptr_length]; exact hcur)
      rw [encode_ptr_length] at hpatch
      simp only [hpatch]
      have hne : (self.m_structs.drop (n_structs - rem)).isEmpty = false := by
        cases hdd : self.m_structs.drop (n_structs - rem) with
        | nil =>
          have := congrArg List.length hdd
          simp only [List.length_drop, List.length_nil] at this
          omega
        | cons _ _ => rfl
      have := ih (done ++ (cur.take L.next_off ++ encode_ptr L.ptr_size (addr + done.length + cur.length)
          ++ cur.drop (L.next_off + L.ptr_size))) (rest.drop cur.length) (by omega) hrest'
      have hpl := patch_next_length L cur (addr + done.length + cur.length) hcur
      unfold patch_next at hpl
      rw [List.length_append, hpl] at this
      rw [this]
      simp only [linked, hne, patch_next, List.append_assoc, Bool.false_eq_true, if_false]

theorem linked_length (L : HeaderLayout) (addr : Nat) (recs : List (List Byte))
    (hhdr : ∀ s ∈ recs, L.next_off + L.ptr_size ≤ s.length) :
    ∀ off, (linked L addr off recs).length = (recs.map List.length).sum := by
  induction recs with
  | nil => intro off; rfl
  | cons cur rest ih =>
    intro off
    have hcur := hhdr cur (List.mem_cons_self _ _)
    have hrest := ih (fun s hs => hhdr s (List.mem_cons_of_mem _ hs)) (off + cur.length)
    simp only [linked, List.length_append, hrest, List.map_cons, List.sum_cons]
    split
    · rfl
    · rw [patch_next_length L cur _ hcur]

theorem create_chain_eq (L : HeaderLayout) (self : StructChainer) (addr : Nat)
    (hne : self.m_structs ≠ []) (hcnt : self.m_structs.length < UINT32_RANGE)
    (hhdr : ∀ s ∈ self.m_structs, L.next_off + L.ptr_size ≤ s.length)
    (hsz : self.m_structs_size = (self.m_structs.map List.length).sum) :
    StructChainer.create_chain L self addr
      = .ok { raw_data := linked L addr 0 self.m_structs
              raw_data_addr := addr
              root_struct_ptr := addr } := by
  have hlen : self.m_structs.length ≠ 0 := fun h => hne (List.length_eq_zero.mp h)
  have hmod : self.m_structs.length % UINT32_RANGE = self.m_structs.length :=
    Nat.mod_eq_of_lt hcnt
  have hloop := create_chain_loop_eq L self addr self.m_structs.length rfl hcnt hhdr
    self.m_structs.length [] (List.replicate self.m_structs_size 0) (Nat.le_refl _)
    (by simp [hsz])
  simp only [List.nil_append, List.length_nil, Nat.sub_self, List.drop_zero] at hloop
  have hpos : (linked L addr 0 self.m_structs).length ≠ 0 := by
    rw [linked_length L addr _ hhdr]
    cases hm : self.m_structs with
    | nil => exact absurd hm hne
    | cons s rest =>
      have := hhdr s (by rw [hm]; exact List.mem_cons_self _ _)
      have := L.ptr_size_pos
      simp only [List.map_cons, List.sum_cons]
      omega
  unfold StructChainer.create_chain
  simp only [hmod, if_neg hlen, StructChain.ctor, hloop, if_neg hpos]

theorem map_length_bytes {L : HeaderLayout} (rs : List (Record L)) :
    (rs.map Record.bytes).map List.length = rs.map Record.sizeof := by
  induction rs with
  | nil => rfl
  | cons r rs ih =>
    simp only [List.map_cons, ih, Record.sizeof, r.size_eq]

theorem length_le_total_size {L : HeaderLayout} (rs : List (Record L)) :
    rs.length ≤ total_size rs := by
  induction rs with
  | nil => simp [total_size]
  | cons r rs ih =>
    have h1 := r.has_header
    have h2 := L.ptr_size_pos
    rw [total_size_cons, List.length_cons]
    unfold Record.sizeof
    omega

/-- The chain built from a builder that was filled from the empty builder with
less than `2^32` bytes of records. -/
theorem create_chain_of_append_structs (L : HeaderLayout) (T : CType) (rs : List (Record L))
    (ids : List StructID) (b : StructChainer) (addr : Nat)
    (happ : StructChainer.append_structs L T StructChainer.ctor rs = .ok (ids, b))
    (hne : rs ≠ []) (hsize : total_size rs < UINT32_RANGE) :
    StructChainer.create_chain L b addr
      = .ok { raw_data := linked L addr 0 (rs.map Record.bytes)
              raw_data_addr := addr
              root_struct_ptr := addr } := by
  obtain ⟨h1, h2, _, _, _⟩ := append_structs_spec L T rs StructChainer.ctor ids b (by decide) happ
  simp only [StructChainer.ctor, List.nil_append, Nat.zero_add] at h1 h2
  have hb := create_chain_eq L b addr
    (by rw [h1]; simpa using hne)
    (by rw [h1, List.length_map]; exact lt_of_le_of_lt (length_le_total_size rs) hsize)
    (by
      intro s hs
      rw [h1] at hs
      obtain ⟨r, _, rfl⟩ := List.mem_map.mp hs
      rw [r.size_eq]; exact r.has_header)
    (by rw [h2, h1, map_length_bytes, Nat.mod_eq_of_lt hsize]; rfl)
  rw [hb, h1]

theorem drop_add_append {α : Type} (X Y : List α) (n k : Nat) (h : X.length = n) :
    (X ++ Y).drop (n + k) = Y.drop k := by
  subst h
  exact List.drop_append _

theorem read_next_ptr_slice (L : HeaderLayout) (buf : List Byte) (off s : Nat)
    (h : L.next_off + L.ptr_size ≤ s) :
    read_next_ptr L buf off = read_next_ptr L ((buf.drop off).take s) 0 := by
  unfold read_next_ptr
  rw [Nat.zero_add, List.drop_take, List.take_take, List.drop_drop,
    Nat.min_eq_left (by omega), Nat.add_comm off]

theorem read_next_ptr_patch_next (L : HeaderLayout) (rec : List Byte) (p : Nat)
    (h : L.next_off + L.ptr_size ≤ rec.length) :
    read_next_ptr L (patch_next L rec p) 0 = p % 256 ^ L.ptr_size := by
  unfold read_next_ptr patch_next
  have h1 : (rec.take L.next_off).length = L.next_off := by
    rw [List.length_take]; omega
  rw [Nat.zero_add, List.append_assoc, List.drop_left' h1,
    List.take_left' (encode_ptr_length _ _), decode_encode_ptr]

/-- The bytes that the chained layout holds for the record of index `i`. -/
theorem linked_slice (L : HeaderLayout) (addr : Nat) (recs : List (List Byte))
    (hhdr : ∀ s ∈ recs, L.next_off + L.ptr_size ≤ s.length) :
    ∀ (off i : Nat) (hi : i < recs.length),
      ((linked L addr off recs).drop ((recs.take i).map List.length).sum).take recs[i].length
        = if i + 1 = recs.length then recs[i]
          else patch_next L recs[i]
            (addr + off + ((recs.take i).map List.length).sum + recs[i].length) := by
  induction recs with
  | nil => intro off i hi; simp at hi
  | cons cur rest ih =>
    intro off i hi
    have hcur := hhdr cur (List.mem_cons_self _ _)
    have hrest : ∀ s ∈ rest, L.next_off + L.ptr_size ≤ s.length :=
      fun s hs => hhdr s (List.mem_cons_of_mem _ hs)
    cases i with
    | zero =>
      simp only [List.take_zero, List.map_nil, List.sum_nil, List.drop_zero,
        List.getElem_cons_zero, Nat.add_zero, linked, List.length_cons]
      cases rest with
      | nil => simp [linked]
      | cons nxt rest2 =>
        have hx : (patch_next L cur (addr + off + cur.length)).length = cur.length :=
          patch_next_length L cur _ hcur
        simp only [List.isEmpty_cons, Bool.false_eq_true, if_false, List.length_cons]
        rw [if_neg (by omega)]
        rw [List.take_left' hx]
    | succ i =>
      have hi1 : i < rest.length := by simpa using hi
      have hx : (if rest.isEmpty then cur else patch_next L cur (addr + off + cur.length)).length
          = cur.length := by
        split
        · rfl
        · exact patch_next_length L cur _ hcur
      have := ih hrest (off + cur.length) i hi1
      simp only [List.take_succ_cons, List.map_cons, List.sum_cons, List.getElem_cons_succ,
        linked, List.length_cons]
      rw [drop_add_append _ _ _ _ hx, this]
      by_cases hl : i + 1 = rest.length
      · rw [if_pos hl, if_pos (by omega)]
      · rw [if_neg hl, if_neg (by omega)]
        congr 1
        omega

theorem total_size_take_succ {L : HeaderLayout} (rs : List (Record L)) (i : Nat)
    (hi : i < rs.length) :
    total_size (rs.take (i + 1)) = total_size (rs.take i) + rs[i].sizeof := by
  induction rs generalizing i with
  | nil => simp at hi
  | cons r rs ih =>
    cases i with
    | zero => simp [total_size]
    | succ i =>
      have hi1 : i < rs.length := by simpa using hi
      simp only [List.take_succ_cons, total_size_cons, List.getElem_cons_succ, ih i hi1]
      omega

theorem total_size_take_le {L : HeaderLayout} (rs : List (Record L)) (k : Nat) :
    total_size (rs.take k) ≤ total_size rs := by
  induction rs generalizing k with
  | nil => simp [total_size]
  | cons r rs ih =>
    cases k with
    | zero => simp [total_size]
    | succ k =>
      simp only [List.take_succ_cons, total_size_cons]
      exact Nat.add_le_add_left (ih k) _

theorem record_end_le_total {L : HeaderLayout} (rs : List (Record L)) (i : Nat)
    (hi : i < rs.length) : total_size (rs.take i) + rs[i].sizeof ≤ total_size rs := by
  rw [← total_size_take_succ rs i hi]
  exact total_size_take_le rs (i + 1)

/-- Everything `create_chain` produces for a builder filled from the empty
builder with less than `2^32` bytes of records. -/
theorem chain_layout (L : HeaderLayout) (T : CType) (rs : List (Record L))
    (ids : List StructID) (b : StructChainer) (addr : Nat)
    (happ : StructChainer.append_structs L T StructChainer.ctor rs = .ok (ids, b))
    (hne : rs ≠ []) (hsize : total_size rs < UINT32_RANGE) :
    ∃ c, StructChainer.create_chain L b addr = .ok c ∧
      c.raw_data_addr = addr ∧ c.root_struct_ptr = addr ∧
      c.raw_data.length = total_size rs ∧
      ∀ (i : Nat) (hi : i < rs.length),
        (c.raw_data.drop (total_size (rs.take i))).take rs[i].sizeof
          = if i + 1 = rs.length then rs[i].bytes
            else patch_next L rs[i].bytes (addr + total_size (rs.take i) + rs[i].sizeof) := by
  have hhdr : ∀ s ∈ rs.map Record.bytes, L.next_off + L.ptr_size ≤ s.length := by
    intro s hs
    obtain ⟨r, _, rfl⟩ := List.mem_map.mp hs
    rw [r.size_eq]; exact r.has_header
  refine ⟨_, create_chain_of_append_structs L T rs ids b addr happ hne hsize, rfl, rfl, ?_, ?_⟩
  · simp only []
    rw [linked_length L addr _ hhdr, map_length_bytes]
    rfl
  · intro i hi
    have hi' : i < (rs.map Record.bytes).length := by simpa using hi
    have hs := linked_slice L addr (rs.map Record.bytes) hhdr 0 i hi'
    have hpre : (((rs.map Record.bytes).take i).map List.length).sum = total_size (rs.take i) := by
      rw [← List.map_take, map_length_bytes]; rfl
    have hget : (rs.map Record.bytes)[i] = rs[i].bytes := by simp
    have hlen : rs[i].bytes.length = rs[i].sizeof := rs[i].size_eq
    rw [hpre, hget, hlen, List.length_map, Nat.add_zero] at hs
    exact hs

theorem wrapped_builder :
    StructChainer.append_structs layout64 tyHuge StructChainer.ctor [recHuge, recHuge]
      = .ok ([0, 2 ^ 31], ⟨[recHuge.bytes, recHuge.bytes], 0⟩) := by
  have hp : recHuge.pNext = 0 := zero_record_pNext _ _ _
  have hs : recHuge.sizeof = 2 ^ 31 := rfl
  simp only [StructChainer.append_structs, append_struct_eq, hp, hs, StructChainer.ctor, tyHuge,
    UINT32_RANGE]
  norm_num

/-- A builder whose running total is zero although it holds records cannot be finalized. -/
theorem create_chain_zero_total (L : HeaderLayout) (s : List Byte) (rest : List (List Byte))
    (addr : Nat) (hlen : (s :: rest).length % UINT32_RANGE ≠ 0) :
    StructChainer.create_chain L ⟨s :: rest, 0⟩ addr = .error .out_of_range := by
  unfold StructChainer.create_chain
  simp only [StructChain.ctor, List.replicate_zero]
  rw [if_neg (by simp)]
  obtain ⟨k, hk⟩ := Nat.exists_eq_succ_of_ne_zero hlen
  rw [hk]
  unfold StructChainer.create_chain_loop
  have hget : (s :: rest)[k + 1 - (k + 1)]? = some s := by simp
  simp only [hget, List.length_nil, Nat.le_refl, if_true]

theorem total_size_replicate {L : HeaderLayout} (n : Nat) (r : Record L) :
    total_size (List.replicate n r) = n * r.sizeof := by
  simp [total_size]

theorem append_structs_replicate (L : HeaderLayout) (T : CType) (r : Record L) (n : Nat)
    (hp : r.pNext = 0) (hs : r.sizeof = T.size) :
    ∃ ids, StructChainer.append_structs L T StructChainer.ctor (List.replicate n r)
      = .ok (ids, ⟨List.replicate n r.bytes, (n * r.sizeof) % UINT32_RANGE⟩) := by
  obtain ⟨ids, b, h⟩ := append_structs_succeeds L T (List.replicate n r)
    (fun x hx => by rw [List.eq_of_mem_replicate hx]; exact ⟨hp, hs⟩) StructChainer.ctor
  obtain ⟨h1, h2, _, _, _⟩ := append_structs_spec L T _ StructChainer.ctor ids b (by decide) h
  refine ⟨ids, ?_⟩
  rw [h]
  obtain ⟨ms, sz⟩ := b
  simp only [StructChainer.ctor, List.nil_append, List.map_replicate, Nat.zero_add,
    total_size_replicate] at h1 h2
  rw [h1, h2]

/-- When the 32-bit record count wraps to one, only the first record is copied. -/
theorem create_chain_count_wraps (L : HeaderLayout) (s : List Byte) (n addr : Nat)
    (hn : n % UINT32_RANGE = 1) (hs : s ≠ []) :
    StructChainer.create_chain L ⟨List.replicate n s, s.length⟩ addr = .ok ⟨s, addr, addr⟩ := by
  have hpos : 0 < n := by
    rcases Nat.eq_zero_or_pos n with h | h
    · rw [h] at hn; simp at hn
    · exact h
  have hlen : s.length ≠ 0 := fun h => hs (List.length_eq_zero.mp h)
  have hw : mem_write (List.replicate s.length 0) 0 s = .ok s := by
    simp [mem_write]
  have hget : (List.replicate n s)[0]? = some s := by
    rw [List.getElem?_replicate, if_pos hpos]
  unfold StructChainer.create_chain
  simp only [List.length_replicate, hn, StructChain.ctor]
  rw [if_neg (by omega)]
  simp only [StructChainer.create_chain_loop, Nat.sub_self, hget, List.length_replicate, hw]
  have h1 : ¬ (s.length ≤ 0) := by omega
  have h2 : ¬ (0 ≠ (1 + UINT32_RANGE - 1) % UINT32_RANGE) := by decide
  simp only [if_neg h1, if_neg hlen, if_neg h2]

theorem patch_next_take (L : HeaderLayout) (rec : List Byte) (p : Nat)
    (h : L.next_off + L.ptr_size ≤ rec.length) :
    (patch_next L rec p).take L.next_off = rec.take L.next_off := by
  unfold patch_next
  rw [List.append_assoc, List.take_left' (by rw [List.length_take]; omega)]

theorem patch_next_drop (L : HeaderLayout) (rec : List Byte) (p : Nat)
    (h : L.next_off + L.ptr_size ≤ rec.length) :
    (patch_next L rec p).drop (L.next_off + L.ptr_size) = rec.drop (L.next_off + L.ptr_size) := by
  unfold patch_next
  have h1 : (rec.take L.next_off ++ encode_ptr L.ptr_size p).length = L.next_off + L.ptr_size := by
    rw [List.length_append, List.length_take, encode_ptr_length]; omega
  rw [List.drop_left' h1]

/-! ## The claims -/

/-- C1 (amended): when the appended records take less than 2^32 bytes in total and the
buffer lies inside the address space, `create_chain` returns a chain in which the forward
pointer of every record but the last is the buffer address plus the record's offset plus
its size, and the forward pointer of the last record is the value the caller supplied. -/
theorem forward_pointer_patch (L : HeaderLayout) (T : CType) (rs : List (Record L))
    (ids : List StructID) (b : StructChainer) (addr : Nat)
    (happ : StructChainer.append_structs L T StructChainer.ctor rs = .ok (ids, b))
    (hne : rs ≠ []) (hsize : total_size rs < UINT32_RANGE)
    (haddr : addr + total_size rs < 256 ^ L.ptr_size) :
    ∃ c, StructChainer.create_chain L b addr = .ok c ∧
      ∀ (i : Nat) (hi : i < rs.length),
        read_next_ptr L c.raw_data (total_size (rs.take i))
          = if i + 1 = rs.length then rs[i].pNext
            else c.raw_data_addr + (total_size (rs.take i) + rs[i].sizeof) := by
  obtain ⟨c, hc, ha, _, _, hslice⟩ := chain_layout L T rs ids b addr happ hne hsize
  refine ⟨c, hc, ?_⟩
  intro i hi
  have hh : L.next_off + L.ptr_size ≤ rs[i].bytes.length := by
    rw [rs[i].size_eq]; exact rs[i].has_header
  rw [read_next_ptr_slice L c.raw_data _ rs[i].sizeof rs[i].has_header, hslice i hi]
  by_cases hl : i + 1 = rs.length
  · rw [if_pos hl, if_pos hl]; rfl
  · rw [if_neg hl, if_neg hl, read_next_ptr_patch_next L _ _ hh, ha, Nat.add_assoc]
    have := record_end_le_total rs i hi
    exact Nat.mod_eq_of_lt (by omega)

/-- Witness of C1: the records of 16, 24 and 8 bytes of the scenario, in a buffer placed
at 0x1000, get the next pointers 0x1010, 0x1028 and null. -/
theorem forward_pointer_patch_witness :
    StructChainer.append_structs layout32 tyA StructChainer.ctor scenario
      = .ok ([0, 16, 40], scenario_builder) ∧
    scenario ≠ [] ∧ total_size scenario < UINT32_RANGE ∧
    0x1000 + total_size scenario < 256 ^ layout32.ptr_size ∧
    ∃ c, StructChainer.create_chain layout32 scenario_builder 0x1000 = .ok c ∧
      c.raw_data_addr = 0x1000 ∧
      read_next_ptr layout32 c.raw_data 0 = 0x1000 + 16 ∧
      read_next_ptr layout32 c.raw_data 16 = 0x1000 + 40 ∧
      read_next_ptr layout32 c.raw_data 40 = 0 := by
  refine ⟨rfl, List.cons_ne_nil _ _, by decide, by decide, ?_⟩
  obtain ⟨c, hc, hp⟩ := forward_pointer_patch layout32 tyA scenario [0, 16, 40]
    scenario_builder 0x1000 rfl (List.cons_ne_nil _ _) (by decide) (by decide)
  have ha : c.raw_data_addr = 0x1000 := by
    have : StructChainer.create_chain layout32 scenario_builder 0x1000
        = .ok ⟨_, 0x1000, 0x1000⟩ := rfl
    rw [this] at hc
    injection hc with hc
    rw [← hc]
  refine ⟨c, hc, ha, ?_, ?_, ?_⟩
  · have := hp 0 (by decide)
    rw [ha] at this
    exact this
  · have := hp 1 (by decide)
    rw [ha] at this
    exact this
  · exact hp 2 (by decide)

/-- Counterexample to C1 as stated: with 2^32 + 1 appended 16-byte records the 32-bit record
count wraps to 1, `create_chain` returns a chain, and the forward pointer of the record at
offset 0, which is not the last record, is null instead of the buffer address plus 16. -/
theorem forward_pointer_patch_counterexample :
    ∃ ids b c,
      StructChainer.append_structs layout64 tyRoot64 StructChainer.ctor
        (List.replicate (2 ^ 32 + 1) recRoot64) = .ok (ids, b) ∧
      StructChainer.create_chain layout64 b 0x10000 = .ok c ∧
      0 + 1 < (List.replicate (2 ^ 32 + 1) recRoot64).length ∧
      read_next_ptr layout64 c.raw_data 0 = 0 ∧
      c.raw_data_addr + (0 + recRoot64.sizeof) = 0x10010 := by
  obtain ⟨ids, h⟩ := append_structs_replicate layout64 tyRoot64 recRoot64 (2 ^ 32 + 1)
    (zero_record_pNext _ _ _) rfl
  have hsz : (2 ^ 32 + 1) * recRoot64.sizeof % UINT32_RANGE = recRoot64.bytes.length := by
    decide
  rw [hsz] at h
  have hc := create_chain_count_wraps layout64 recRoot64.bytes (2 ^ 32 + 1) 0x10000
    (by decide) (by decide)
  refine ⟨ids, _, _, h, hc, ?_, ?_, ?_⟩
  · rw [List.length_replicate]; decide
  · decide
  · decide

/-- C2 (amended): the id returned for the N-th appended record is the sum of the sizes of
the records appended before it, reduced modulo 2^32 (`StructID` is a `uint32_t`); it is
that sum itself whenever the sum is below 2^32, and 0 for the first record. -/
theorem offset_identity_mod (L : HeaderLayout) (T : CType) (rs : List (Record L))
    (ids : List StructID) (b : StructChainer)
    (happ : StructChainer.append_structs L T StructChainer.ctor rs = .ok (ids, b))
    (N : Nat) (hN : N < rs.length) :
    ids[N]? = some (total_size (rs.take N) % UINT32_RANGE) ∧
    (total_size (rs.take N) < UINT32_RANGE → ids[N]? = some (total_size (rs.take N))) ∧
    (N = 0 → ids[N]? = some 0) := by
  obtain ⟨_, _, _, h4, _⟩ := append_structs_spec L T rs StructChainer.ctor ids b (by decide) happ
  have h := h4 N hN
  simp only [StructChainer.ctor, Nat.zero_add] at h
  refine ⟨h, ?_, ?_⟩
  · intro hlt
    rw [h, Nat.mod_eq_of_lt hlt]
  · intro h0
    subst h0
    rw [h]
    rfl

/-- Witness of C2: in the scenario the third record gets the id 16 + 24 = 40. -/
theorem offset_identity_mod_witness :
    StructChainer.append_structs layout32 tyA StructChainer.ctor scenario
      = .ok ([0, 16, 40], scenario_builder) ∧
    2 < scenario.length ∧
    total_size (scenario.take 2) = 40 ∧
    ([0, 16, 40] : List StructID)[2]? = some (total_size (scenario.take 2) % UINT32_RANGE) :=
  ⟨rfl, by decide, by decide,
    (offset_identity_mod layout32 tyA scenario [0, 16, 40] scenario_builder rfl 2 (by decide)).1⟩

/-- Counterexample to C2 as stated: three appended records of 2^31 bytes each get the
ids 0, 2^31 and 0, while the two records before the third take 2^32 bytes. -/
theorem offset_identity_counterexample :
    ∃ b, StructChainer.append_structs layout64 tyHuge StructChainer.ctor [recHuge, recHuge, recHuge]
        = .ok ([0, 2 ^ 31, 0], b) ∧
      total_size ([recHuge, recHuge, recHuge].take 2) = 2 ^ 32 := by
  have hp : recHuge.pNext = 0 := zero_record_pNext _ _ _
  have hs : recHuge.sizeof = 2 ^ 31 := rfl
  refine ⟨⟨[recHuge.bytes, recHuge.bytes, recHuge.bytes], 2 ^ 31⟩, ?_, ?_⟩
  · simp only [StructChainer.append_structs, append_struct_eq, hp, hs, StructChainer.ctor, tyHuge,
      UINT32_RANGE]
    norm_num
  · simp [total_size, hs]

/-- C3 (amended): when the appended records take less than 2^32 bytes in total,
`create_chain` returns a chain whose buffer length is exactly the sum of the record
sizes; record N starts at the sum of the sizes of the records before it, which is where
record N-1 ends, and its bytes outside the forward-pointer field are those appended. -/
theorem buffer_size_exact (L : HeaderLayout) (T : CType) (rs : List (Record L))
    (ids : List StructID) (b : StructChainer) (addr : Nat)
    (happ : StructChainer.append_structs L T StructChainer.ctor rs = .ok (ids, b))
    (hne : rs ≠ []) (hsize : total_size rs < UINT32_RANGE) :
    ∃ c, StructChainer.create_chain L b addr = .ok c ∧
      c.raw_data.length = total_size rs ∧
      ∀ (i : Nat) (hi : i < rs.length),
        total_size (rs.take (i + 1)) = total_size (rs.take i) + rs[i].sizeof ∧
        total_size (rs.take (i + 1)) ≤ c.raw_data.length ∧
        (((c.raw_data.drop (total_size (rs.take i))).take rs[i].sizeof).take L.next_off
          = rs[i].bytes.take L.next_off) ∧
        (((c.raw_data.drop (total_size (rs.take i))).take rs[i].sizeof).drop
            (L.next_off + L.ptr_size)
          = rs[i].bytes.drop (L.next_off + L.ptr_size)) := by
  obtain ⟨c, hc, _, _, hlen, hslice⟩ := chain_layout L T rs ids b addr happ hne hsize
  refine ⟨c, hc, hlen, ?_⟩
  intro i hi
  have hh : L.next_off + L.ptr_size ≤ rs[i].bytes.length := by
    rw [rs[i].size_eq]; exact rs[i].has_header
  refine ⟨total_size_take_succ rs i hi, ?_, ?_, ?_⟩
  · rw [hlen]; exact total_size_take_le rs (i + 1)
  · rw [hslice i hi]
    split
    · rfl
    · exact patch_next_take L _ _ hh
  · rw [hslice i hi]
    split
    · rfl
    · exact patch_next_drop L _ _ hh

/-- Witness of C3: the scenario gives a buffer of 16 + 24 + 8 = 48 bytes. -/
theorem buffer_size_exact_witness :
    StructChainer.append_structs layout32 tyA StructChainer.ctor scenario
      = .ok ([0, 16, 40], scenario_builder) ∧
    scenario ≠ [] ∧ total_size scenario < UINT32_RANGE ∧ total_size scenario = 48 ∧
    ∃ c, StructChainer.create_chain layout32 scenario_builder 0x1000 = .ok c ∧
      c.raw_data.length = total_size scenario := by
  refine ⟨rfl, List.cons_ne_nil _ _, by decide, by decide, ?_⟩
  obtain ⟨c, hc, hlen, _⟩ := buffer_size_exact layout32 tyA scenario [0, 16, 40]
    scenario_builder 0x1000 rfl (List.cons_ne_nil _ _) (by decide)
  exact ⟨c, hc, hlen⟩

/-- Counterexample to C3 as stated: with 2^32 + 1 appended 16-byte records the running
total wraps to 16 and the record count to 1; `create_chain` returns a chain whose buffer
has 16 bytes, while the appended records take 16 * (2^32 + 1) bytes. -/
theorem buffer_size_counterexample :
    ∃ ids b c,
      StructChainer.append_structs layout64 tyRoot64 StructChainer.ctor
        (List.replicate (2 ^ 32 + 1) recRoot64) = .ok (ids, b) ∧
      StructChainer.create_chain layout64 b 0x10000 = .ok c ∧
      c.raw_data.length = 16 ∧
      total_size (List.replicate (2 ^ 32 + 1) recRoot64) = 16 * (2 ^ 32 + 1) := by
  obtain ⟨ids, h⟩ := append_structs_replicate layout64 tyRoot64 recRoot64 (2 ^ 32 + 1)
    (zero_record_pNext _ _ _) rfl
  have hsz : (2 ^ 32 + 1) * recRoot64.sizeof % UINT32_RANGE = recRoot64.bytes.length := by
    decide
  rw [hsz] at h
  have hc := create_chain_count_wraps layout64 recRoot64.bytes (2 ^ 32 + 1) 0x10000
    (by decide) (by decide)
  refine ⟨ids, _, _, h, hc, ?_, ?_⟩
  · decide
  · rw [total_size_replicate]; decide

/-- C4 (amended): when the appended records take less than 2^32 bytes in total, reading
`sizeof` bytes through the pointer that `get_struct_with_id` returns for the id of an
appended record yields the bytes of that record outside its forward-pointer field; for the
last record it yields all of its bytes. -/
theorem round_trip_read_outside_next (L : HeaderLayout) (T : CType) (rs : List (Record L))
    (ids : List StructID) (b : StructChainer) (addr : Nat)
    (happ : StructChainer.append_structs L T StructChainer.ctor rs = .ok (ids, b))
    (hne : rs ≠ []) (hsize : total_size rs < UINT32_RANGE) :
    ∃ c, StructChainer.create_chain L b addr = .ok c ∧
      ∀ (i : Nat) (hi : i < rs.length) (id : StructID), ids[i]? = some id →
        ∃ p, c.get_struct_with_id id = .ok p ∧
          (c.read_bytes p rs[i].sizeof).length = rs[i].sizeof ∧
          (c.read_bytes p rs[i].sizeof).take L.next_off = rs[i].bytes.take L.next_off ∧
          (c.read_bytes p rs[i].sizeof).drop (L.next_off + L.ptr_size)
            = rs[i].bytes.drop (L.next_off + L.ptr_size) ∧
          (i + 1 = rs.length → c.read_bytes p rs[i].sizeof = rs[i].bytes) := by
  obtain ⟨c, hc, ha, _, hlen, hslice⟩ := chain_layout L T rs ids b addr happ hne hsize
  obtain ⟨_, _, _, h4, _⟩ := append_structs_spec L T rs StructChainer.ctor ids b (by decide) happ
  refine ⟨c, hc, ?_⟩
  intro i hi id hid
  have hend := record_end_le_total rs i hi
  have hhdr := rs[i].has_header
  have hptr := L.ptr_size_pos
  have hsz : rs[i].sizeof = rs[i].ty.size := rfl
  have hbl : rs[i].bytes.length = rs[i].sizeof := rs[i].size_eq
  have hidv : id = total_size (rs.take i) := by
    have := h4 i hi
    simp only [StructChainer.ctor, Nat.zero_add] at this
    rw [this, Nat.mod_eq_of_lt (by omega)] at hid
    exact (Option.some.inj hid).symm
  subst hidv
  have hget : c.get_struct_with_id (total_size (rs.take i))
      = .ok (c.raw_data_addr + total_size (rs.take i)) := by
    unfold StructChain.get_struct_with_id anvil_assert
    have h1 : total_size (rs.take i) < c.raw_data.length := by omega
    have h2 : c.raw_data.length ≠ 0 := by omega
    simp [h1, h2]
  have hread : c.read_bytes (c.raw_data_addr + total_size (rs.take i)) rs[i].sizeof
      = if i + 1 = rs.length then rs[i].bytes
        else patch_next L rs[i].bytes (addr + total_size (rs.take i) + rs[i].sizeof) := by
    unfold StructChain.read_bytes
    rw [Nat.add_sub_cancel_left]
    exact hslice i hi
  refine ⟨_, hget, ?_, ?_, ?_, ?_⟩
  · rw [hread]
    split
    · exact hbl
    · rw [patch_next_length L _ _ (by omega)]; exact hbl
  · rw [hread]
    split
    · rfl
    · exact patch_next_take L _ _ (by omega)
  · rw [hread]
    split
    · rfl
    · exact patch_next_drop L _ _ (by omega)
  · intro hl
    rw [hread, if_pos hl]

/-- Witness of C4: in the scenario the last record, read back through its id 40, has
exactly the bytes that were appended. -/
theorem round_trip_read_outside_next_witness :
    StructChainer.append_structs layout32 tyA StructChainer.ctor scenario
      = .ok ([0, 16, 40], scenario_builder) ∧
    scenario ≠ [] ∧ total_size scenario < UINT32_RANGE ∧
    ∃ c p, StructChainer.create_chain layout32 scenario_builder 0x1000 = .ok c ∧
      c.get_struct_with_id 40 = .ok p ∧ c.read_bytes p recC.sizeof = recC.bytes := by
  refine ⟨rfl, List.cons_ne_nil _ _, by decide, ?_⟩
  obtain ⟨c, hc, h⟩ := round_trip_read_outside_next layout32 tyA scenario [0, 16, 40]
    scenario_builder 0x1000 rfl (List.cons_ne_nil _ _) (by decide)
  obtain ⟨p, hp, _, _, _, hlast⟩ := h 2 (by decide) 40 rfl
  exact ⟨c, p, hc, hp, hlast rfl⟩

/-- Counterexample to C4 as stated: in the scenario the 16 bytes read back through the
id 0 of record A differ from the bytes of record A that were appended (the forward
pointer now holds 0x1010). -/
theorem round_trip_read_counterexample :
    StructChainer.append_structs layout32 tyA StructChainer.ctor scenario
      = .ok ([0, 16, 40], scenario_builder) ∧
    ∃ c p, StructChainer.create_chain layout32 scenario_builder 0x1000 = .ok c ∧
      c.get_struct_with_id 0 = .ok p ∧
      c.read_bytes p recA.sizeof
        = [1, 0, 0, 0, 0x10, 0x10, 0, 0, 0xA0, 0xA1, 0xA2, 0xA3, 0xA4, 0xA5, 0xA6, 0xA7] ∧
      c.read_bytes p recA.sizeof ≠ recA.bytes := by
  refine ⟨rfl, ?_⟩
  have hc : StructChainer.create_chain layout32 scenario_builder 0x1000
      = .ok ⟨linked layout32 0x1000 0 scenario_builder.m_structs, 0x1000, 0x1000⟩ := rfl
  refine ⟨_, 0x1000, hc, rfl, rfl, by decide⟩

/-- C5 (evaluation of the code at the failing input): the first append to an empty builder
of root type `tyA` of a record whose type is not `tyA` but whose size is that of `tyA`
is accepted: the call returns the id 0 and stores the record. -/
theorem first_append_same_size_accepted :
    recSameSize.ty ≠ tyA ∧ recSameSize.pNext = 0 ∧
    StructChainer.append_struct layout32 tyA StructChainer.ctor recSameSize
      = (.ok 0, ⟨[recSameSize.bytes], 16⟩) :=
  ⟨by decide, rfl, rfl⟩

/-- C6 (evaluation of the code at the failing input): a builder of a root type of 2^31 bytes
has accepted two records of that type, so that it holds two records and its running total
`m_structs_size` is 0 again.  The append of a third record, of a 24-byte extension type and
with its forward pointer unset, fails with InvariantViolation although the builder is not
empty. -/
theorem append_rejected_after_wrap :
    ∃ b, StructChainer.append_structs layout64 tyHuge StructChainer.ctor [recHuge, recHuge]
        = .ok ([0, 2 ^ 31], b) ∧
      b.m_structs.length = 2 ∧ recExt64.pNext = 0 ∧
      StructChainer.append_struct layout64 tyHuge b recExt64 = (.error .InvariantViolation, b) := by
  refine ⟨_, wrapped_builder, rfl, zero_record_pNext _ _ _, ?_⟩
  rw [append_struct_eq, if_pos]
  right
  exact ⟨rfl, by decide⟩

/-- C7: `append_struct` of a record whose forward pointer is set fails with
InvariantViolation, whatever the record's type, the root type and the builder. -/
theorem append_rejects_set_pNext (L : HeaderLayout) (T : CType) (self : StructChainer)
    (r : Record L) (hp : r.pNext ≠ 0) :
    (StructChainer.append_struct L T self r).1 = .error .InvariantViolation := by
  rw [append_struct_eq, if_pos (Or.inl hp)]

/-- Witness of C7: a root-type record whose forward pointer is 0x2000 is rejected by the
empty builder. -/
theorem append_rejects_set_pNext_witness :
    recLinked.pNext ≠ 0 ∧
    (StructChainer.append_struct layout32 tyA StructChainer.ctor recLinked).1
      = .error .InvariantViolation :=
  ⟨by decide, append_rejects_set_pNext layout32 tyA StructChainer.ctor recLinked (by decide)⟩

theorem mem_write_ne_invariant (dst : List Byte) (off : Nat) (src : List Byte) :
    mem_write dst off src ≠ .error .InvariantViolation := by
  unfold mem_write
  split <;> simp

theorem create_chain_loop_ne_invariant (L : HeaderLayout) (self : StructChainer)
    (addr n_structs : Nat) :
    ∀ (remaining : Nat) (raw_data : List Byte) (n_bytes_used : Nat),
      StructChainer.create_chain_loop L self addr n_structs remaining raw_data n_bytes_used
        ≠ .error .InvariantViolation := by
  intro remaining
  induction remaining with
  | zero => intro raw_data n_bytes_used; simp [StructChainer.create_chain_loop]
  | succ rem ih =>
    intro raw_data n_bytes_used
    unfold StructChainer.create_chain_loop
    simp only []
    split
    · simp
    · split
      · simp
      · split
        · simp
        · split
          · rename_i f hf
            intro h
            injection h with h
            subst h
            exact mem_write_ne_invariant _ _ _ hf
          · split
            · split
              · simp
              · split
                · rename_i f hf
                  intro h
                  injection h with h
                  subst h
                  exact mem_write_ne_invariant _ _ _ hf
                · exact ih _ _
            · exact ih _ _

/-- C8 (amended): `create_chain` fails with InvariantViolation exactly when the builder
holds no record; on a builder filled from the empty builder with at least one record and
less than 2^32 bytes of records it returns a chain. -/
theorem create_chain_invariant_iff_empty (L : HeaderLayout) (self : StructChainer) (addr : Nat) :
    (StructChainer.create_chain L self addr = .error .InvariantViolation ↔ self.m_structs = []) ∧
    (∀ (T : CType) (rs : List (Record L)) (ids : List StructID),
      StructChainer.append_structs L T StructChainer.ctor rs = .ok (ids, self) →
      rs ≠ [] → total_size rs < UINT32_RANGE →
      ∃ c, StructChainer.create_chain L self addr = .ok c) := by
  constructor
  · constructor
    · intro h
      by_contra hne
      have hlen : self.m_structs.length ≠ 0 := fun hl => hne (List.length_eq_zero.mp hl)
      unfold StructChainer.create_chain at h
      simp only [if_neg hlen] at h
      split at h
      · rename_i f hf
        injection h with h
        subst h
        exact create_chain_loop_ne_invariant _ _ _ _ _ _ _ hf
      · split at h <;> simp at h
    · intro h
      unfold StructChainer.create_chain
      simp [h, anvil_assert]
  · intro T rs ids happ hne hsize
    obtain ⟨c, hc, _⟩ := chain_layout L T rs ids self addr happ hne hsize
    exact ⟨c, hc⟩

/-- Witness of C8: the builder of the scenario holds three records and is finalized. -/
theorem create_chain_invariant_iff_empty_witness :
    StructChainer.append_structs layout32 tyA StructChainer.ctor scenario
      = .ok ([0, 16, 40], scenario_builder) ∧
    scenario ≠ [] ∧ total_size scenario < UINT32_RANGE ∧
    scenario_builder.m_structs ≠ [] ∧
    ∃ c, StructChainer.create_chain layout32 scenario_builder 0x1000 = .ok c :=
  ⟨rfl, List.cons_ne_nil _ _, by decide, List.cons_ne_nil _ _,
    (create_chain_invariant_iff_empty layout32 scenario_builder 0x1000).2 tyA scenario
      [0, 16, 40] rfl (List.cons_ne_nil _ _) (by decide)⟩

/-- Counterexample to C8 as stated: the builder that holds two records of 2^31 bytes has
a running total of 0; `create_chain` allocates an empty buffer and stops with the
`std::out_of_range` of `raw_data.at(0)`: it returns no chain. -/
theorem create_chain_counterexample :
    ∃ b, StructChainer.append_structs layout64 tyHuge StructChainer.ctor [recHuge, recHuge]
        = .ok ([0, 2 ^ 31], b) ∧
      b.m_structs.length = 2 ∧
      StructChainer.create_chain layout64 b 0x10000 = .error .out_of_range :=
  ⟨_, wrapped_builder, rfl, create_chain_zero_total layout64 _ _ _ (by decide)⟩

/-- C9: when the first `append_struct` call on the empty builder is rejected with
InvariantViolation, the builder afterwards is still the empty builder: it holds no record,
its running total is 0 and `create_chain` fails on it as on an empty builder. -/
theorem rejected_append_atomic (L : HeaderLayout) (T : CType) (r : Record L) (addr : Nat)
    (hrej : (StructChainer.append_struct L T StructChainer.ctor r).1
      = .error .InvariantViolation) :
    (StructChainer.append_struct L T StructChainer.ctor r).2 = StructChainer.ctor ∧
    (StructChainer.append_struct L T StructChainer.ctor r).2.m_structs.length = 0 ∧
    (StructChainer.append_struct L T StructChainer.ctor r).2.m_structs_size = 0 ∧
    StructChainer.create_chain L (StructChainer.append_struct L T StructChainer.ctor r).2 addr
      = .error .InvariantViolation := by
  have hst : (StructChainer.append_struct L T StructChainer.ctor r).2 = StructChainer.ctor := by
    rw [append_struct_eq] at hrej ⊢
    split
    · rfl
    · rename_i hc
      rw [if_neg hc] at hrej
      simp at hrej
  rw [hst]
  exact ⟨rfl, rfl, rfl, rfl⟩

/-- Witness of C9: the 24-byte extension record B is rejected as first record of a chain
whose root type has 16 bytes, and the builder is still the empty builder. -/
theorem rejected_append_atomic_witness :
    recB.ty ≠ tyA ∧
    (StructChainer.append_struct layout32 tyA StructChainer.ctor recB).1
      = .error .InvariantViolation ∧
    (StructChainer.append_struct layout32 tyA StructChainer.ctor recB).2 = StructChainer.ctor :=
  ⟨by decide, rfl, (rejected_append_atomic layout32 tyA recB 0x1000 rfl).1⟩

/-- C10: `get_struct_with_id` fails with OutOfBounds exactly when the id is not below the
length of the buffer; for an id below the length it returns the buffer address plus the
id, and the result depends on the buffer only through its length and address. -/
theorem get_struct_with_id_bounds (c : StructChain) (id : Nat) :
    (c.get_struct_with_id id = .error .OutOfBounds ↔ c.raw_data.length ≤ id) ∧
    c.get_struct_with_id id
      = (if id < c.raw_data.length then .ok (c.raw_data_addr + id) else .error .OutOfBounds) ∧
    (∀ data : List Byte, data.length = c.raw_data.length →
      StructChain.get_struct_with_id { c with raw_data := data } id
        = c.get_struct_with_id id) := by
  have hform : ∀ c : StructChain, c.get_struct_with_id id
      = (if id < c.raw_data.length then .ok (c.raw_data_addr + id) else .error .OutOfBounds) := by
    intro c
    unfold StructChain.get_struct_with_id anvil_assert
    by_cases h : id < c.raw_data.length
    · have h2 : c.raw_data.length ≠ 0 := by omega
      simp [h, h2]
    · simp [h]
  refine ⟨?_, hform c, ?_⟩
  · rw [hform c]
    by_cases h : id < c.raw_data.length
    · simp [h]
    · simp [h]; omega
  · intro data hd
    rw [hform, hform c]
    simp only [hd]

/-! ## Closed form of `create_chain` on any filled builder -/

theorem mem_write_length (dst : List Byte) (off : Nat) (src out : List Byte)
    (h : mem_write dst off src = .ok out) : out.length = dst.length := by
  unfold mem_write at h
  split at h
  · injection h with h
    subst h
    simp only [List.length_append, List.length_take, List.length_drop]
    omega
  · simp at h

/-- One iteration of the copy loop, when it does not stop with a fault. -/
theorem create_chain_loop_succ_ok (L : HeaderLayout) (self : StructChainer) (addr n_structs : Nat)
    (rem : Nat) (raw_data : List Byte) (n_bytes_used : Nat) (out : List Byte)
    (h : StructChainer.create_chain_loop L self addr n_structs (rem + 1) raw_data n_bytes_used
      = .ok out) :
    ∃ cur next_raw, self.m_structs[n_structs - (rem + 1)]? = some cur ∧
      n_bytes_used + cur.length ≤ raw_data.length ∧
      next_raw.length = raw_data.length ∧
      StructChainer.create_chain_loop L self addr n_structs rem next_raw
        (n_bytes_used + cur.length) = .ok out := by
  unfold StructChainer.create_chain_loop at h
  simp only [] at h
  split at h
  · simp at h
  · rename_i cur hcur
    split at h
    · simp at h
    · split at h
      · simp at h
      · split at h
        · simp at h
        · rename_i copied hcopied
          have hlen := mem_write_length _ _ _ _ hcopied
          have hfit : n_bytes_used + cur.length ≤ raw_data.length := by
            unfold mem_write at hcopied
            split at hcopied
            · assumption
            · simp at hcopied
          split at h
          · split at h
            · simp at h
            · split at h
              · simp at h
              · rename_i patched hpatched
                have hlen2 := mem_write_length _ _ _ _ hpatched
                exact ⟨cur, patched, hcur, hfit, by rw [hlen2, hlen], h⟩
          · exact ⟨cur, copied, hcur, hfit, hlen, h⟩

theorem create_chain_loop_length (L : HeaderLayout) (self : StructChainer) (addr n_structs : Nat) :
    ∀ (rem : Nat) (raw_data : List Byte) (n_bytes_used : Nat) (out : List Byte),
      StructChainer.create_chain_loop L self addr n_structs rem raw_data n_bytes_used = .ok out →
      out.length = raw_data.length := by
  intro rem
  induction rem with
  | zero =>
    intro raw_data n_bytes_used out h
    simp only [StructChainer.create_chain_loop, Except.ok.injEq] at h
    rw [h]
  | succ rem ih =>
    intro raw_data n_bytes_used out h
    obtain ⟨cur, next_raw, _, _, hlen, hrec⟩ :=
      create_chain_loop_succ_ok L self addr n_structs rem raw_data n_bytes_used out h
    rw [ih _ _ _ hrec, hlen]

/-- When the copy loop ends without a fault, the records it had to copy fit into the
buffer behind the write offset. -/
theorem create_chain_loop_fits (L : HeaderLayout) (self : StructChainer) (addr n_structs : Nat) :
    ∀ (rem : Nat) (raw_data : List Byte) (n_bytes_used : Nat) (out : List Byte),
      rem ≤ n_structs →
      StructChainer.create_chain_loop L self addr n_structs rem raw_data n_bytes_used = .ok out →
      rem = 0 ∨
        n_bytes_used + (((self.m_structs.drop (n_structs - rem)).take rem).map List.length).sum
          ≤ raw_data.length := by
  intro rem
  induction rem with
  | zero => intro _ _ _ _ _; exact Or.inl rfl
  | succ rem ih =>
    intro raw_data n_bytes_used out hle h
    right
    obtain ⟨cur, next_raw, hcur, hfit, hlen, hrec⟩ :=
      create_chain_loop_succ_ok L self addr n_structs rem raw_data n_bytes_used out h
    have hidx : n_structs - (rem + 1) < self.m_structs.length := by
      by_contra hge
      rw [List.getElem?_eq_none (by omega)] at hcur
      simp at hcur
    have hcur' : self.m_structs[n_structs - (rem + 1)] = cur := by
      rw [List.getElem?_eq_getElem hidx] at hcur
      exact Option.some.inj hcur
    have hdrop : self.m_structs.drop (n_structs - (rem + 1))
        = cur :: self.m_structs.drop (n_structs - rem) := by
      rw [List.drop_eq_getElem_cons hidx, hcur']
      congr 2
      omega
    rw [hdrop, List.take_succ_cons, List.map_cons, List.sum_cons]
    rcases ih next_raw _ out (by omega) hrec with h0 | hfits
    · subst h0
      simp only [List.take_zero, List.map_nil, List.sum_nil]
      omega
    · rw [hlen] at hfits
      omega

/-- Closed form of the copy loop: the records it still has to copy are laid out behind the
part of the buffer that is done, and the bytes behind them are left as they are. -/
theorem create_chain_loop_closed (L : HeaderLayout) (self : StructChainer) (addr n_structs : Nat)
    (hk : n_structs ≤ self.m_structs.length) (hlt : n_structs < UINT32_RANGE)
    (hhdr : ∀ s ∈ self.m_structs, L.next_off + L.ptr_size ≤ s.length) :
    ∀ (rem : Nat) (done rest : List Byte), rem ≤ n_structs →
      (((self.m_structs.drop (n_structs - rem)).take rem).map List.length).sum ≤ rest.length →
      StructChainer.create_chain_loop L self addr n_structs rem (done ++ rest) done.length
        = .ok (done ++ linked L addr done.length ((self.m_structs.drop (n_structs - rem)).take rem)
            ++ rest.drop (((self.m_structs.drop (n_structs - rem)).take rem).map List.length).sum) := by
  intro rem
  induction rem with
  | zero =>
    intro done rest _ _
    simp [StructChainer.create_chain_loop, linked]
  | succ rem ih =>
    intro done rest hle hrest
    have hidx : n_structs - (rem + 1) < self.m_structs.length := by omega
    have hdrop : self.m_structs.drop (n_structs - (rem + 1))
        = self.m_structs[n_structs - (rem + 1)] :: self.m_structs.drop (n_structs - rem) := by
      rw [List.drop_eq_getElem_cons hidx]
      congr 2
      omega
    have hmem : self.m_structs[n_structs - (rem + 1)] ∈ self.m_structs := List.getElem_mem _
    have hcur := hhdr _ hmem
    have hptr := L.ptr_size_pos
    generalize hcurdef : self.m_structs[n_structs - (rem + 1)] = cur at hdrop hcur
    rw [hdrop, List.take_succ_cons] at hrest ⊢
    simp only [List.map_cons, List.sum_cons] at hrest ⊢
    generalize hwin : (self.m_structs.drop (n_structs - rem)).take rem = window at hrest ⊢
    have hget : self.m_structs[n_structs - (rem + 1)]? = some cur := by
      rw [List.getElem?_eq_getElem hidx, hcurdef]
    have hlast : (n_structs + UINT32_RANGE - 1) % UINT32_RANGE = n_structs - 1 := by
      have : n_structs + UINT32_RANGE - 1 = (n_structs - 1) + UINT32_RANGE := by omega
      rw [this, Nat.add_mod_right]
      exact Nat.mod_eq_of_lt (by omega)
    have hcopy := mem_write_at_end done rest cur (by omega)
    have hlen1 : ¬ (done ++ rest).length ≤ done.length := by
      simp only [List.length_append]; omega
    have hlen2 : ¬ cur.length = 0 := by omega
    have hrest' : (window.map List.length).sum ≤ (rest.drop cur.length).length := by
      rw [List.length_drop]; omega
    have htail : (rest.drop cur.length).drop (window.map List.length).sum
        = rest.drop (cur.length + (window.map List.length).sum) := by
      rw [List.drop_drop, Nat.add_comm]
    unfold StructChainer.create_chain_loop
    simp only [hget, if_neg hlen1, if_neg hlen2, hcopy, hlast]
    by_cases hrem : rem = 0
    · have hc : ¬ (n_structs - (rem + 1) ≠ n_structs - 1) := by
        subst hrem; simp
      rw [if_neg hc]
      have hw : window = [] := by rw [← hwin, hrem, List.take_zero]
      have := ih (done ++ cur) (rest.drop cur.length) (by omega) (by rw [hwin]; exact hrest')
      rw [List.length_append, hwin, htail] at this
      rw [this, hw]
      simp [linked]
    · have hc : n_structs - (rem + 1) ≠ n_structs - 1 := by omega
      rw [if_pos hc]
      have hlen3 : ¬ (done ++ cur ++ List.drop cur.length rest).length ≤ done.length := by
        simp only [List.length_append]; omega
      rw [if_neg hlen3]
      have hpatch := mem_write_inside done cur (rest.drop cur.length)
        (encode_ptr L.ptr_size (addr + done.length + cur.length)) L.next_off
        (by rw [encode_ptr_length]; exact hcur)
      rw [encode_ptr_length] at hpatch
      simp only [hpatch]
      have hne : window.isEmpty = false := by
        cases hdd : window with
        | nil =>
          have := congrArg List.length hwin
          rw [hdd] at this
          simp only [List.length_take, List.length_drop, List.length_nil] at this
          omega
        | cons _ _ => rfl
      have := ih (done ++ (cur.take L.next_off ++ encode_ptr L.ptr_size (addr + done.length + cur.length)
          ++ cur.drop (L.next_off + L.ptr_size))) (rest.drop cur.length) (by omega)
          (by rw [hwin]; exact hrest')
      have hpl := patch_next_length L cur (addr + done.length + cur.length) hcur
      unfold patch_next at hpl
      rw [List.length_append, hpl, hwin, htail] at this
      rw [this]
      simp only [linked, hne, patch_next, List.append_assoc, Bool.false_eq_true, if_false]

/-- Closed form of `create_chain` on a builder whose staged records all hold a header: the
records that the 32-bit count `n_structs` covers are laid out at the start of the buffer. -/
theorem create_chain_closed_ok (L : HeaderLayout) (self : StructChainer) (addr : Nat)
    (hhdr : ∀ s ∈ self.m_structs, L.next_off + L.ptr_size ≤ s.length)
    (hne : self.m_structs ≠ [])
    (hfit : ((self.m_structs.take (self.m_structs.length % UINT32_RANGE)).map List.length).sum
      ≤ self.m_structs_size)
    (hsz : self.m_structs_size ≠ 0) :
    StructChainer.create_chain L self addr
      = .ok { raw_data :=
                linked L addr 0 (self.m_structs.take (self.m_structs.length % UINT32_RANGE))
                  ++ List.replicate (self.m_structs_size
                      - ((self.m_structs.take (self.m_structs.length % UINT32_RANGE)).map
                          List.length).sum) 0
              raw_data_addr := addr
              root_struct_ptr := addr } := by
  have hlen : self.m_structs.length ≠ 0 := fun h => hne (List.length_eq_zero.mp h)
  have hk : self.m_structs.length % UINT32_RANGE ≤ self.m_structs.length := Nat.mod_le _ _
  have hlt : self.m_structs.length % UINT32_RANGE < UINT32_RANGE := Nat.mod_lt _ (by decide)
  have hloop := create_chain_loop_closed L self addr _ hk hlt hhdr
    (self.m_structs.length % UINT32_RANGE) [] (List.replicate self.m_structs_size 0)
    (Nat.le_refl _) (by simpa using hfit)
  simp only [List.nil_append, List.length_nil, Nat.sub_self, List.drop_zero,
    List.drop_replicate] at hloop
  have hpos : (linked L addr 0 (self.m_structs.take (self.m_structs.length % UINT32_RANGE))
      ++ List.replicate (self.m_structs_size
          - ((self.m_structs.take (self.m_structs.length % UINT32_RANGE)).map
              List.length).sum) 0).length ≠ 0 := by
    rw [List.length_append, List.length_replicate,
      linked_length L addr _ (fun s hs => hhdr s (List.mem_of_mem_take hs))]
    omega
  unfold StructChainer.create_chain
  simp only [if_neg hlen, StructChain.ctor, hloop, if_neg hpos]

/-- Every chain that `create_chain` returns for such a builder has the closed form. -/
theorem create_chain_closed (L : HeaderLayout) (self : StructChainer) (addr : Nat)
    (c : StructChain)
    (hhdr : ∀ s ∈ self.m_structs, L.next_off + L.ptr_size ≤ s.length)
    (h : StructChainer.create_chain L self addr = .ok c) :
    self.m_structs ≠ [] ∧
    ((self.m_structs.take (self.m_structs.length % UINT32_RANGE)).map List.length).sum
      ≤ self.m_structs_size ∧
    c.raw_data = linked L addr 0 (self.m_structs.take (self.m_structs.length % UINT32_RANGE))
      ++ List.replicate (self.m_structs_size
          - ((self.m_structs.take (self.m_structs.length % UINT32_RANGE)).map List.length).sum) 0 ∧
    c.raw_data_addr = addr ∧ c.root_struct_ptr = addr := by
  have hne : self.m_structs ≠ [] := by
    intro hnil
    unfold StructChainer.create_chain at h
    simp [hnil, anvil_assert] at h
  have hlen : self.m_structs.length ≠ 0 := fun hl => hne (List.length_eq_zero.mp hl)
  have h0 := h
  unfold StructChainer.create_chain at h0
  simp only [if_neg hlen, StructChain.ctor] at h0
  split at h0
  · simp at h0
  · rename_i raw hraw
    have hfits := create_chain_loop_fits L self addr _ _ _ _ _ (Nat.le_refl _) hraw
    have hrl := create_chain_loop_length L self addr _ _ _ _ _ hraw
    simp only [Nat.sub_self, List.drop_zero, List.length_replicate, Nat.zero_add] at hfits hrl
    have hfit : ((self.m_structs.take (self.m_structs.length % UINT32_RANGE)).map List.length).sum
        ≤ self.m_structs_size := by
      rcases hfits with h0' | hf
      · rw [h0']; simp
      · exact hf
    have hsz : self.m_structs_size ≠ 0 := by
      intro hz
      rw [hz] at hrl
      simp [hrl] at h0
    have hc := create_chain_closed_ok L self addr hhdr hne hfit hsz
    rw [hc] at h
    injection h with h
    subst h
    exact ⟨hne, hfit, rfl, rfl, rfl⟩

/-- The staged records of a builder filled by `append_structs` all hold a header. -/
theorem staged_records_have_header (L : HeaderLayout) (T : CType) (rs : List (Record L))
    (ids : List StructID) (b : StructChainer)
    (happ : StructChainer.append_structs L T StructChainer.ctor rs = .ok (ids, b)) :
    b.m_structs = rs.map Record.bytes ∧
    b.m_structs_size = total_size rs % UINT32_RANGE ∧
    ∀ s ∈ b.m_structs, L.next_off + L.ptr_size ≤ s.length := by
  obtain ⟨h1, h2, _, _, _⟩ := append_structs_spec L T rs StructChainer.ctor ids b (by decide) happ
  simp only [StructChainer.ctor, List.nil_append, Nat.zero_add] at h1 h2
  refine ⟨h1, h2, ?_⟩
  intro s hs
  rw [h1] at hs
  obtain ⟨r, _, rfl⟩ := List.mem_map.mp hs
  rw [r.size_eq]; exact r.has_header

/-! ## The claims on the collection and on repeated finalization -/

theorem append_struct_chain_eq (T : CType) (self : StructChainVector) (c : StructChain) :
    StructChainVector.append_struct_chain T self c =
      if c.raw_data.length = 0 then (.error .out_of_range, self)
      else if T.size ≤ c.raw_data.length then
        (.ok (),
         { root_structs := self.root_structs ++ [c.raw_data.take T.size]
           struct_chain_ptrs := self.struct_chain_ptrs ++ [c] })
      else (.error .access_violation, self) := by
  unfold StructChainVector.append_struct_chain StructChain.get_root_struct mem_read
  by_cases h0 : c.raw_data.length = 0
  · simp [h0]
  · by_cases h1 : T.size ≤ c.raw_data.length
    · simp [h0, h1]
    · simp [h0, h1]

theorem append_struct_chains_spec (T : CType) (cs : List StructChain) :
    ∀ (self coll : StructChainVector),
      StructChainVector.append_struct_chains T self cs = .ok coll →
      coll.root_structs = self.root_structs ++ cs.map (fun c => c.raw_data.take T.size) ∧
      coll.struct_chain_ptrs = self.struct_chain_ptrs ++ cs ∧
      ∀ c ∈ cs, c.raw_data.length ≠ 0 ∧ T.size ≤ c.raw_data.length := by
  induction cs with
  | nil =>
    intro self coll h
    simp only [StructChainVector.append_struct_chains, Except.ok.injEq] at h
    subst h
    simp
  | cons c cs ih =>
    intro self coll h
    rw [StructChainVector.append_struct_chains, append_struct_chain_eq] at h
    by_cases h0 : c.raw_data.length = 0
    · simp [h0] at h
    · by_cases h1 : T.size ≤ c.raw_data.length
      · rw [if_neg h0, if_pos h1] at h
        simp only [] at h
        obtain ⟨hr, hp, hall⟩ := ih _ coll h
        refine ⟨?_, ?_, ?_⟩
        · simp [hr]
        · simp [hp]
        · intro x hx
          rcases List.mem_cons.mp hx with rfl | hx
          · exact ⟨h0, h1⟩
          · exact hall x hx
      · simp [h0, h1] at h

theorem append_struct_chains_succeeds (T : CType) (cs : List StructChain)
    (hcs : ∀ c ∈ cs, c.raw_data.length ≠ 0 ∧ T.size ≤ c.raw_data.length) :
    ∀ self : StructChainVector, ∃ coll,
      StructChainVector.append_struct_chains T self cs = .ok coll := by
  induction cs with
  | nil => intro self; exact ⟨self, rfl⟩
  | cons c cs ih =>
    intro self
    obtain ⟨h0, h1⟩ := hcs c (List.mem_cons_self _ _)
    obtain ⟨coll, h⟩ := ih (fun x hx => hcs x (List.mem_cons_of_mem _ hx))
      { root_structs := self.root_structs ++ [c.raw_data.take T.size]
        struct_chain_ptrs := self.struct_chain_ptrs ++ [c] }
    refine ⟨coll, ?_⟩
    rw [StructChainVector.append_struct_chains, append_struct_chain_eq, if_neg h0, if_pos h1]
    exact h

theorem inserts_replicate (T : CType) (c : StructChain) (n : Nat)
    (h0 : c.raw_data.length ≠ 0) (h1 : T.size ≤ c.raw_data.length) :
    ∃ coll, StructChainVector.append_struct_chains T StructChainVector.ctor
        (List.replicate n c) = .ok coll ∧
      coll.struct_chain_ptrs.length = n ∧
      coll.get_n_structs = n % UINT32_RANGE := by
  obtain ⟨coll, h⟩ := append_struct_chains_succeeds T (List.replicate n c)
    (fun x hx => by rw [List.eq_of_mem_replicate hx]; exact ⟨h0, h1⟩) StructChainVector.ctor
  obtain ⟨hr, hp, _⟩ := append_struct_chains_spec T _ _ coll h
  refine ⟨coll, h, ?_, ?_⟩
  · rw [hp]
    simp only [StructChainVector.ctor, List.nil_append, List.length_replicate]
  · unfold StructChainVector.get_n_structs
    rw [hr]
    simp only [StructChainVector.ctor, List.nil_append, List.length_map, List.length_replicate]

/-- C11 (amended): in every state of a collection reached from the empty collection by
successful `append_struct_chain` calls there are as many root copies as owned chains,
`get_n_structs()` is the number of inserts reduced modulo 2^32 (the number itself below
2^32), the i-th root copy is the first `sizeof(StructType)` bytes of the i-th inserted chain
as it was when inserted, and a further insert appends to both sequences and keeps all
earlier entries. -/
theorem collection_invariant (T : CType) (cs : List StructChain) (coll : StructChainVector)
    (hcs : StructChainVector.append_struct_chains T StructChainVector.ctor cs = .ok coll) :
    coll.root_structs.length = coll.struct_chain_ptrs.length ∧
    coll.struct_chain_ptrs = cs ∧
    coll.get_n_structs = cs.length % UINT32_RANGE ∧
    (cs.length < UINT32_RANGE → coll.get_n_structs = cs.length) ∧
    (∀ (i : Nat) (hi : i < cs.length),
      coll.root_structs[i]? = some (cs[i].raw_data.take T.size) ∧
      (cs[i].raw_data.take T.size).length = T.size) ∧
    (∀ (c : StructChain) (coll1 : StructChainVector),
      StructChainVector.append_struct_chain T coll c = (.ok (), coll1) →
      coll1.root_structs = coll.root_structs ++ [c.raw_data.take T.size] ∧
      coll1.struct_chain_ptrs = coll.struct_chain_ptrs ++ [c]) := by
  obtain ⟨hr, hp, hall⟩ := append_struct_chains_spec T cs _ coll hcs
  simp only [StructChainVector.ctor, List.nil_append] at hr hp
  have hn : coll.get_n_structs = cs.length % UINT32_RANGE := by
    unfold StructChainVector.get_n_structs
    rw [hr, List.length_map]
  refine ⟨?_, hp, hn, ?_, ?_, ?_⟩
  · rw [hr, hp, List.length_map]
  · intro hlt
    rw [hn, Nat.mod_eq_of_lt hlt]
  · intro i hi
    refine ⟨?_, ?_⟩
    · rw [hr, List.getElem?_map, List.getElem?_eq_getElem hi]
      rfl
    · rw [List.length_take]
      exact Nat.min_eq_left (hall _ (List.getElem_mem _)).2
  · intro c coll1 hins
    rw [append_struct_chain_eq] at hins
    by_cases h0 : c.raw_data.length = 0
    · simp [h0] at hins
    · by_cases h1 : T.size ≤ c.raw_data.length
      · rw [if_neg h0, if_pos h1] at hins
        injection hins with _ hins
        subst hins
        exact ⟨rfl, rfl⟩
      · simp [h0, h1] at hins

/-- Witness of C11: the chain of the scenario inserted twice into the empty collection
gives two root copies, each the first 16 bytes of the buffer. -/
theorem collection_invariant_witness :
    ∃ coll, StructChainVector.append_struct_chains tyA StructChainVector.ctor
        [scenario_chain, scenario_chain] = .ok coll ∧
      coll.root_structs.length = coll.struct_chain_ptrs.length ∧
      coll.get_n_structs = 2 ∧
      coll.root_structs[1]? = some (scenario_chain.raw_data.take 16) := by
  have h : StructChainVector.append_struct_chains tyA StructChainVector.ctor
      [scenario_chain, scenario_chain]
      = .ok ⟨[scenario_chain.raw_data.take 16, scenario_chain.raw_data.take 16],
          [scenario_chain, scenario_chain]⟩ := rfl
  obtain ⟨h1, _, h3, _, h5, _⟩ := collection_invariant tyA [scenario_chain, scenario_chain] _ h
  exact ⟨_, h, h1, h3, (h5 1 (by decide)).1⟩

/-- Counterexample to C11 as stated: after 2^32 inserts of a chain `get_n_structs()`
returns 0. -/
theorem collection_invariant_counterexample :
    ∃ coll, StructChainVector.append_struct_chains tyC StructChainVector.ctor
        (List.replicate (2 ^ 32) single_chain) = .ok coll ∧
      coll.struct_chain_ptrs.length = 2 ^ 32 ∧
      coll.get_n_structs = 0 := by
  obtain ⟨coll, h, hl, hn⟩ := inserts_replicate tyC single_chain (2 ^ 32) (by decide) (by decide)
  have h0 : 2 ^ 32 % UINT32_RANGE = 0 := by decide
  rw [h0] at hn
  exact ⟨coll, h, hl, hn⟩

/-- One byte of an object after a store. -/
theorem store_into_getElem? (addr : Nat) (src : List Byte) (base : Nat) (obj : List Byte) (i : Nat)
    (hi : i < obj.length) :
    (store_into addr src base obj)[i]?
      = some (if addr ≤ base + i ∧ base + i < addr + src.length then src.getD (base + i - addr) 0
              else obj.getD i 0) := by
  unfold store_into
  rw [List.getElem?_map, List.getElem?_range hi]
  rfl

/-- A store keeps the size of an object. -/
theorem store_into_length (addr : Nat) (src : List Byte) (base : Nat) (obj : List Byte) :
    (store_into addr src base obj).length = obj.length := by
  unfold store_into
  rw [List.length_map, List.length_range]

/-- A store that does not overlap an object leaves it as it is. -/
theorem store_into_disjoint (addr : Nat) (src : List Byte) (base : Nat) (obj : List Byte)
    (h : base + obj.length ≤ addr ∨ addr + src.length ≤ base) :
    store_into addr src base obj = obj := by
  apply List.ext_getElem?
  intro i
  by_cases hi : i < obj.length
  · rw [store_into_getElem? addr src base obj i hi, if_neg (by omega),
      List.getD_eq_getElem?_getD, List.getElem?_eq_getElem hi]
    rfl
  · rw [List.getElem?_eq_none (by rw [store_into_length]; omega),
      List.getElem?_eq_none (by omega)]

/-- A store inside an object replaces the stored bytes and keeps the others. -/
theorem store_into_inside (src : List Byte) (base : Nat) (obj : List Byte) (off : Nat)
    (h : off + src.length ≤ obj.length) :
    store_into (base + off) src base obj
      = obj.take off ++ src ++ obj.drop (off + src.length) := by
  apply List.ext_getElem?
  intro i
  have htl : (obj.take off).length = off := by
    rw [List.length_take]; omega
  by_cases hi : i < obj.length
  · rw [store_into_getElem? _ src base obj i hi]
    by_cases h1 : i < off
    · rw [if_neg (by omega), List.append_assoc, List.getElem?_append_left (by omega),
        List.getElem?_take_of_lt h1, List.getD_eq_getElem?_getD, List.getElem?_eq_getElem hi]
      rfl
    · by_cases h2 : i < off + src.length
      · rw [if_pos (by omega), List.append_assoc, List.getElem?_append_right (by omega), htl,
          List.getElem?_append_left (by omega), List.getD_eq_getElem?_getD]
        have e : base + i - (base + off) = i - off := by omega
        rw [e, List.getElem?_eq_getElem (by omega)]
        rfl
      · rw [if_neg (by omega), List.getElem?_append_right
            (by rw [List.length_append, htl]; omega),
          List.length_append, htl, List.getElem?_drop, List.getD_eq_getElem?_getD]
        have e : off + src.length + (i - (off + src.length)) = i := by omega
        rw [e, List.getElem?_eq_getElem hi]
        rfl
  · rw [List.getElem?_eq_none (by rw [store_into_length]; omega), List.getElem?_eq_none]
    simp only [List.length_append, List.length_take, List.length_drop]
    omega

/-- A store that does not overlap an array leaves all of its elements as they are. -/
theorem store_into_array_disjoint (addr : Nat) (src : List Byte) (elem_size : Nat) :
    ∀ (es : List (List Byte)) (base : Nat), (∀ e ∈ es, e.length = elem_size) →
      (base + es.length * elem_size ≤ addr ∨ addr + src.length ≤ base) →
      store_into_array addr src elem_size base es = es := by
  intro es
  induction es with
  | nil => intro _ _ _; rfl
  | cons e es ih =>
    intro base hlen h
    have he := hlen e (List.mem_cons_self _ _)
    have hmul : (e :: es).length * elem_size = es.length * elem_size + elem_size := by
      rw [List.length_cons, Nat.succ_mul]
    rw [hmul] at h
    have hnn : 0 ≤ es.length * elem_size := Nat.zero_le _
    rw [store_into_array, store_into_disjoint addr src base e (by omega),
      ih (base + elem_size) (fun x hx => hlen x (List.mem_cons_of_mem _ hx)) (by omega)]

/-- C12: a chain is inserted by `append_struct_chain(chain)` into a collection reached from
the empty one, and further chains may be inserted after it.  A caller then stores bytes
through the chain's `get_root_struct()` pointer into the first `sizeof(StructType)` bytes of
the chain's buffer; the storage of `root_structs` and the buffer of the chain are two
allocations, which do not overlap.  The store changes the bytes of the owned chain, and
leaves every entry of `get_root_structs()` unchanged; the entry taken from that chain still
is the root record as it was when inserted. -/
theorem snapshot_independence (T : CType) (cs : List StructChain) (coll : StructChainVector)
    (c : StructChain) (coll1 : StructChainVector) (later : List StructChain)
    (coll2 : StructChainVector) (root_structs_addr off : Nat) (src : List Byte)
    (hcs : StructChainVector.append_struct_chains T StructChainVector.ctor cs = .ok coll)
    (hins : StructChainVector.append_struct_chain T coll c = (.ok (), coll1))
    (hlater : StructChainVector.append_struct_chains T coll1 later = .ok coll2)
    (hin : off + src.length ≤ T.size)
    (hdisj : root_structs_addr + coll2.root_structs.length * T.size ≤ c.raw_data_addr ∨
      c.raw_data_addr + c.raw_data.length ≤ root_structs_addr) :
    ∃ p, c.get_root_struct = .ok p ∧
      (coll2.after_store T root_structs_addr (p + off) src).struct_chain_ptrs[cs.length]?
        = some { c with raw_data :=
            c.raw_data.take off ++ src ++ c.raw_data.drop (off + src.length) } ∧
      (coll2.after_store T root_structs_addr (p + off) src).root_structs
        = coll2.root_structs ∧
      (coll2.after_store T root_structs_addr (p + off) src).get_root_structs
        = coll2.get_root_structs ∧
      (coll2.after_store T root_structs_addr (p + off) src).root_structs[cs.length]?
        = some (c.raw_data.take T.size) := by
  obtain ⟨hr, hp, hall⟩ := append_struct_chains_spec T cs _ coll hcs
  obtain ⟨hr2, hp2, hall2⟩ := append_struct_chains_spec T later _ coll2 hlater
  simp only [StructChainVector.ctor, List.nil_append] at hr hp
  rw [append_struct_chain_eq] at hins
  by_cases h0 : c.raw_data.length = 0
  · simp [h0] at hins
  by_cases h1 : T.size ≤ c.raw_data.length
  swap
  · simp [h0, h1] at hins
  rw [if_neg h0, if_pos h1] at hins
  injection hins with _ hins
  subst hins
  simp only [] at hr2 hp2
  have hroot : c.get_root_struct = .ok c.raw_data_addr := by
    unfold StructChain.get_root_struct
    rw [if_neg h0]
  have hlens : ∀ e ∈ coll2.root_structs, e.length = T.size := by
    intro e he
    rw [hr2] at he
    rcases List.mem_append.mp he with he | he
    · rcases List.mem_append.mp he with he | he
      · rw [hr] at he
        obtain ⟨x, hx, rfl⟩ := List.mem_map.mp he
        rw [List.length_take]
        exact Nat.min_eq_left (hall x hx).2
      · rw [List.mem_singleton.mp he, List.length_take]
        exact Nat.min_eq_left h1
    · obtain ⟨x, hx, rfl⟩ := List.mem_map.mp he
      rw [List.length_take]
      exact Nat.min_eq_left (hall2 x hx).2
  have hroots : (coll2.after_store T root_structs_addr (c.raw_data_addr + off) src).root_structs
      = coll2.root_structs := by
    unfold StructChainVector.after_store
    simp only []
    apply store_into_array_disjoint _ _ _ _ _ hlens
    omega
  refine ⟨c.raw_data_addr, hroot, ?_, hroots, ?_, ?_⟩
  · unfold StructChainVector.after_store
    simp only []
    rw [List.getElem?_map, hp2, hp, List.append_assoc,
      List.getElem?_append_right (Nat.le_refl _), Nat.sub_self]
    simp only [List.singleton_append, List.getElem?_cons_zero, Option.map_some']
    rw [store_into_inside src c.raw_data_addr c.raw_data off (by omega)]
  · unfold StructChainVector.get_root_structs
    rw [hroots]
  · rw [hroots, hr2, hr, List.append_assoc,
      List.getElem?_append_right (by rw [List.length_map]), List.length_map, Nat.sub_self]
    simp only [List.singleton_append, List.getElem?_cons_zero]

/-- Witness of C12: the chain of the scenario, whose buffer is at 0x1000, is inserted into
the empty collection, and the one-record chain after it; the two root copies are kept at
0x8000.  Overwriting the four bytes of the type tag through the root pointer of the first
chain changes the owned chain and neither root copy; the same store made at 0x8000 would
change the first root copy. -/
theorem snapshot_independence_witness :
    StructChainVector.append_struct_chains tyC StructChainVector.ctor []
      = .ok StructChainVector.ctor ∧
    StructChainVector.append_struct_chain tyC StructChainVector.ctor scenario_chain
      = (.ok (), ⟨[[1, 0, 0, 0, 0x10, 0x10, 0, 0]], [scenario_chain]⟩) ∧
    StructChainVector.append_struct_chains tyC
        ⟨[[1, 0, 0, 0, 0x10, 0x10, 0, 0]], [scenario_chain]⟩ [single_chain]
      = .ok ⟨[[1, 0, 0, 0, 0x10, 0x10, 0, 0], [3, 0, 0, 0, 0, 0, 0, 0]],
          [scenario_chain, single_chain]⟩ ∧
    0 + [0xFF, 0xFF, 0xFF, 0xFF].length ≤ tyC.size ∧
    scenario_chain.raw_data_addr + scenario_chain.raw_data.length ≤ 0x8000 ∧
    (StructChainVector.after_store tyC
        ⟨[[1, 0, 0, 0, 0x10, 0x10, 0, 0], [3, 0, 0, 0, 0, 0, 0, 0]],
          [scenario_chain, single_chain]⟩ 0x8000 (0x1000 + 0) [0xFF, 0xFF, 0xFF, 0xFF]).root_structs
      = [[1, 0, 0, 0, 0x10, 0x10, 0, 0], [3, 0, 0, 0, 0, 0, 0, 0]] ∧
    ((StructChainVector.after_store tyC
        ⟨[[1, 0, 0, 0, 0x10, 0x10, 0, 0], [3, 0, 0, 0, 0, 0, 0, 0]],
          [scenario_chain, single_chain]⟩ 0x8000 (0x1000 + 0)
          [0xFF, 0xFF, 0xFF, 0xFF]).struct_chain_ptrs.map (fun chain => chain.raw_data.take 8))
      = [[0xFF, 0xFF, 0xFF, 0xFF, 0x10, 0x10, 0, 0], [3, 0, 0, 0, 0, 0, 0, 0]] ∧
    (StructChainVector.after_store tyC
        ⟨[[1, 0, 0, 0, 0x10, 0x10, 0, 0], [3, 0, 0, 0, 0, 0, 0, 0]],
          [scenario_chain, single_chain]⟩ 0x8000 0x8000 [0xFF, 0xFF, 0xFF, 0xFF]).root_structs
      = [[0xFF, 0xFF, 0xFF, 0xFF, 0x10, 0x10, 0, 0], [3, 0, 0, 0, 0, 0, 0, 0]] := by
  obtain ⟨p, hp, _, h3, _⟩ := snapshot_independence tyC [] StructChainVector.ctor scenario_chain
    ⟨[[1, 0, 0, 0, 0x10, 0x10, 0, 0]], [scenario_chain]⟩ [single_chain]
    ⟨[[1, 0, 0, 0, 0x10, 0x10, 0, 0], [3, 0, 0, 0, 0, 0, 0, 0]], [scenario_chain, single_chain]⟩
    0x8000 0 [0xFF, 0xFF, 0xFF, 0xFF] rfl rfl rfl (by decide) (Or.inr (by decide))
  have hp0 : p = 0x1000 := by
    have : scenario_chain.get_root_struct = .ok 0x1000 := rfl
    rw [this] at hp
    injection hp with hp
    exact hp.symm
  subst hp0
  exact ⟨rfl, rfl, rfl, by decide, by decide, h3, by decide, by decide⟩

theorem patch_next_getElem_outside (L : HeaderLayout) (rec : List Byte) (p j : Nat)
    (h : L.next_off + L.ptr_size ≤ rec.length)
    (hj : ¬ (L.next_off ≤ j ∧ j < L.next_off + L.ptr_size)) :
    (patch_next L rec p)[j]? = rec[j]? := by
  unfold patch_next
  have h1 : (rec.take L.next_off).length = L.next_off := by
    rw [List.length_take]; omega
  have h2 : (rec.take L.next_off ++ encode_ptr L.ptr_size p).length = L.next_off + L.ptr_size := by
    rw [List.length_append, h1, encode_ptr_length]
  by_cases hlt : j < L.next_off
  · rw [List.append_assoc, List.getElem?_append_left (by omega), List.getElem?_take_of_lt hlt]
  · have hge : L.next_off + L.ptr_size ≤ j := by omega
    rw [List.getElem?_append_right (by omega), h2, List.getElem?_drop]
    congr 1
    omega

/-- Outside the forward-pointer fields of the records that have a successor, the chained
layout holds the bytes of the records, back to back. -/
theorem linked_getElem_outside (L : HeaderLayout) (addr : Nat) (recs : List (List Byte))
    (hhdr : ∀ s ∈ recs, L.next_off + L.ptr_size ≤ s.length) :
    ∀ (off j : Nat),
      (∀ i, i + 1 < recs.length →
        ¬ (((recs.take i).map List.length).sum + L.next_off ≤ j ∧
           j < ((recs.take i).map List.length).sum + L.next_off + L.ptr_size)) →
      (linked L addr off recs)[j]? = recs.flatten[j]? := by
  induction recs with
  | nil => intro off j _; rfl
  | cons cur rest ih =>
    intro off j hout
    have hcur := hhdr cur (List.mem_cons_self _ _)
    have hrest : ∀ s ∈ rest, L.next_off + L.ptr_size ≤ s.length :=
      fun s hs => hhdr s (List.mem_cons_of_mem _ hs)
    have hx : (if rest.isEmpty then cur else patch_next L cur (addr + off + cur.length)).length
        = cur.length := by
      split
      · rfl
      · exact patch_next_length L cur _ hcur
    simp only [linked, List.flatten_cons]
    by_cases hj : j < cur.length
    · rw [List.getElem?_append_left (by rw [hx]; exact hj), List.getElem?_append_left hj]
      cases rest with
      | nil => rfl
      | cons nxt rest2 =>
        simp only [List.isEmpty_cons, Bool.false_eq_true, if_false]
        have h0 := hout 0 (by simp)
        simp only [List.take_zero, List.map_nil, List.sum_nil, Nat.zero_add] at h0
        exact patch_next_getElem_outside L cur _ j hcur h0
    · rw [List.getElem?_append_right (by rw [hx]; omega), hx,
        List.getElem?_append_right (by omega)]
      apply ih hrest
      intro i hi
      have := hout (i + 1) (by simpa using hi)
      simp only [List.take_succ_cons, List.map_cons, List.sum_cons] at this
      omega

theorem slice_append_left {α : Type} (A Z : List α) (off s : Nat) (h : off + s ≤ A.length) :
    ((A ++ Z).drop off).take s = (A.drop off).take s := by
  rw [List.drop_append_of_le_length (by omega), List.take_append_of_le_length]
  rw [List.length_drop]
  omega

theorem sum_take_le_sum {α : Type} (f : α → Nat) (l : List α) (k : Nat) :
    ((l.take k).map f).sum ≤ (l.map f).sum := by
  induction l generalizing k with
  | nil => simp
  | cons a l ih =>
    cases k with
    | zero => simp
    | succ k =>
      simp only [List.take_succ_cons, List.map_cons, List.sum_cons]
      exact Nat.add_le_add_left (ih k) _

theorem sum_take_succ_length (recs : List (List Byte)) (i : Nat) (hi : i < recs.length) :
    ((recs.take (i + 1)).map List.length).sum
      = ((recs.take i).map List.length).sum + recs[i].length := by
  induction recs generalizing i with
  | nil => simp at hi
  | cons r recs ih =>
    cases i with
    | zero => simp
    | succ i =>
      have hi1 : i < recs.length := by simpa using hi
      simp only [List.take_succ_cons, List.map_cons, List.sum_cons, List.getElem_cons_succ,
        ih i hi1]
      omega

/-- The bytes of the record of index `i` in a buffer that starts with the chained layout. -/
theorem closed_slice (L : HeaderLayout) (addr : Nat) (recs : List (List Byte)) (Z : List Byte)
    (hhdr : ∀ s ∈ recs, L.next_off + L.ptr_size ≤ s.length) (i : Nat) (hi : i < recs.length) :
    ((linked L addr 0 recs ++ Z).drop ((recs.take i).map List.length).sum).take recs[i].length
      = if i + 1 = recs.length then recs[i]
        else patch_next L recs[i] (addr + ((recs.take i).map List.length).sum + recs[i].length) := by
  have hle : ((recs.take i).map List.length).sum + recs[i].length
      ≤ (linked L addr 0 recs).length := by
    rw [linked_length L addr _ hhdr, ← sum_take_succ_length recs i hi]
    exact sum_take_le_sum _ _ _
  rw [slice_append_left _ _ _ _ hle]
  have := linked_slice L addr recs hhdr 0 i hi
  rw [Nat.add_zero] at this
  exact this

/-- The forward pointer of the record of index `i` in such a buffer. -/
theorem closed_next_ptr (L : HeaderLayout) (addr : Nat) (recs : List (List Byte)) (Z : List Byte)
    (hhdr : ∀ s ∈ recs, L.next_off + L.ptr_size ≤ s.length) (i : Nat) (hi : i < recs.length) :
    read_next_ptr L (linked L addr 0 recs ++ Z) ((recs.take i).map List.length).sum
      = if i + 1 = recs.length then read_next_ptr L recs[i] 0
        else (addr + ((recs.take i).map List.length).sum + recs[i].length) % 256 ^ L.ptr_size := by
  have hh := hhdr _ (List.getElem_mem hi)
  rw [read_next_ptr_slice L _ _ recs[i].length hh, closed_slice L addr recs Z hhdr i hi]
  split
  · rfl
  · exact read_next_ptr_patch_next L _ _ hh

theorem window_header (L : HeaderLayout) (rs : List (Record L)) (k : Nat) :
    ∀ s ∈ (rs.take k).map Record.bytes, L.next_off + L.ptr_size ≤ s.length := by
  intro s hs
  obtain ⟨r, _, rfl⟩ := List.mem_map.mp hs
  rw [r.size_eq]; exact r.has_header

theorem window_length {L : HeaderLayout} (rs : List (Record L)) (k : Nat) (hk : k ≤ rs.length) :
    ((rs.take k).map Record.bytes).length = k := by
  rw [List.length_map, List.length_take]
  exact Nat.min_eq_left hk

theorem window_sum {L : HeaderLayout} (rs : List (Record L)) (k i : Nat) (hi : i ≤ k) :
    ((((rs.take k).map Record.bytes).take i).map List.length).sum = total_size (rs.take i) := by
  rw [← List.map_take, List.take_take, Nat.min_eq_left hi, map_length_bytes]
  rfl

theorem window_get {L : HeaderLayout} (rs : List (Record L)) (k i : Nat)
    (hw : i < ((rs.take k).map Record.bytes).length) (hlen : i < rs.length) :
    ((rs.take k).map Record.bytes)[i] = rs[i].bytes := by
  simp [List.getElem_take]

/-- The forward pointer of the record of index `i` of a chain that holds the first `k`
records of `rs`. -/
theorem chain_record_next_ptr (L : HeaderLayout) (addr : Nat) (rs : List (Record L)) (k : Nat)
    (hk : k ≤ rs.length) (Z : List Byte) (i : Nat) (hi : i < k) (hlen : i < rs.length) :
    read_next_ptr L (linked L addr 0 ((rs.take k).map Record.bytes) ++ Z) (total_size (rs.take i))
      = if i + 1 = k then rs[i].pNext
        else (addr + total_size (rs.take i) + rs[i].sizeof) % 256 ^ L.ptr_size := by
  have hi' : i < ((rs.take k).map Record.bytes).length := by
    rw [window_length rs k hk]; exact hi
  have h := closed_next_ptr L addr _ Z (window_header L rs k) i hi'
  rw [window_sum rs k i (by omega), window_get rs k i hi' hlen, window_length rs k hk] at h
  rw [h, rs[i].size_eq]
  rfl

/-- The bytes of the record of index `i` of such a chain. -/
theorem chain_record_slice (L : HeaderLayout) (addr : Nat) (rs : List (Record L)) (k : Nat)
    (hk : k ≤ rs.length) (Z : List Byte) (i : Nat) (hi : i < k) (hlen : i < rs.length) :
    ((linked L addr 0 ((rs.take k).map Record.bytes) ++ Z).drop (total_size (rs.take i))).take
        rs[i].sizeof
      = if i + 1 = k then rs[i].bytes
        else patch_next L rs[i].bytes (addr + total_size (rs.take i) + rs[i].sizeof) := by
  have hi' : i < ((rs.take k).map Record.bytes).length := by
    rw [window_length rs k hk]; exact hi
  have h := closed_slice L addr _ Z (window_header L rs k) i hi'
  rw [window_sum rs k i (by omega), window_get rs k i hi' hlen, window_length rs k hk,
    rs[i].size_eq] at h
  exact h

/-- Every chain that `create_chain` returns for a builder filled by `append_structs` holds
the first `n_structs` records, chained, followed by zero bytes. -/
theorem chain_of_builder (L : HeaderLayout) (T : CType) (rs : List (Record L))
    (ids : List StructID) (b : StructChainer) (addr : Nat) (c : StructChain)
    (happ : StructChainer.append_structs L T StructChainer.ctor rs = .ok (ids, b))
    (hc : StructChainer.create_chain L b addr = .ok c) :
    rs ≠ [] ∧
    total_size (rs.take (rs.length % UINT32_RANGE)) ≤ b.m_structs_size ∧
    c.raw_data = linked L addr 0 ((rs.take (rs.length % UINT32_RANGE)).map Record.bytes)
      ++ List.replicate (b.m_structs_size - total_size (rs.take (rs.length % UINT32_RANGE))) 0 ∧
    c.raw_data_addr = addr ∧ c.root_struct_ptr = addr := by
  obtain ⟨hm, _, hhdr⟩ := staged_records_have_header L T rs ids b happ
  obtain ⟨hne, hfit, hraw, ha, hr⟩ := create_chain_closed L b addr c hhdr hc
  have hsum : ((b.m_structs.take (b.m_structs.length % UINT32_RANGE)).map List.length).sum
      = total_size (rs.take (rs.length % UINT32_RANGE)) := by
    rw [hm, List.length_map, ← List.map_take, map_length_bytes]
    rfl
  rw [hsum] at hfit hraw
  rw [hm, List.length_map, ← List.map_take] at hraw
  refine ⟨?_, hfit, hraw, ha, hr⟩
  intro hnil
  rw [hm, hnil] at hne
  exact hne rfl

/-- Two buffers that start with the chained layout of the same records at two addresses and
end with the same bytes agree outside the forward-pointer fields of the records that have
a successor. -/
theorem closed_getElem_outside (L : HeaderLayout) (addr1 addr2 : Nat) (recs : List (List Byte))
    (Z : List Byte) (hhdr : ∀ s ∈ recs, L.next_off + L.ptr_size ≤ s.length) (j : Nat)
    (hout : ∀ i, i + 1 < recs.length →
      ¬ (((recs.take i).map List.length).sum + L.next_off ≤ j ∧
         j < ((recs.take i).map List.length).sum + L.next_off + L.ptr_size)) :
    (linked L addr1 0 recs ++ Z)[j]? = (linked L addr2 0 recs ++ Z)[j]? := by
  have h1 := linked_length L addr1 recs hhdr 0
  have h2 := linked_length L addr2 recs hhdr 0
  by_cases hj : j < (recs.map List.length).sum
  · rw [List.getElem?_append_left (by rw [h1]; exact hj),
      List.getElem?_append_left (by rw [h2]; exact hj),
      linked_getElem_outside L addr1 recs hhdr 0 j hout,
      linked_getElem_outside L addr2 recs hhdr 0 j hout]
  · rw [List.getElem?_append_right (by rw [h1]; omega),
      List.getElem?_append_right (by rw [h2]; omega), h1, h2]

/-- C13: `create_chain` is a `const` member, so the builder is the same before and after
it: its staged records are still the appended bytes, forward pointers included, and its
running total is unchanged.  Two `create_chain` calls on it that return chains return
buffers of equal length that agree in every byte outside the patched forward-pointer
fields, and in each such field both hold their own buffer address plus the same offset;
for a non-empty builder of less than 2^32 bytes both calls do return a chain. -/
theorem repeated_finalization (L : HeaderLayout) (T : CType) (rs : List (Record L))
    (ids : List StructID) (b : StructChainer) (addr1 addr2 : Nat)
    (happ : StructChainer.append_structs L T StructChainer.ctor rs = .ok (ids, b)) :
    (b.m_structs = rs.map Record.bytes ∧ b.m_structs_size = total_size rs % UINT32_RANGE) ∧
    (∀ (r : Record L) (rest : List (Record L)), rs = r :: rest →
      b.get_root_struct = .ok r.bytes) ∧
    (∀ c1 c2 : StructChain,
      StructChainer.create_chain L b addr1 = .ok c1 →
      StructChainer.create_chain L b addr2 = .ok c2 →
      c1.raw_data.length = c2.raw_data.length ∧
      (∀ j : Nat,
        (∀ i, i + 1 < rs.length % UINT32_RANGE →
          ¬ (total_size (rs.take i) + L.next_off ≤ j ∧
             j < total_size (rs.take i) + L.next_off + L.ptr_size)) →
        c1.raw_data[j]? = c2.raw_data[j]?) ∧
      (∀ i, i + 1 < rs.length % UINT32_RANGE →
        read_next_ptr L c1.raw_data (total_size (rs.take i))
          = (c1.raw_data_addr + total_size (rs.take (i + 1))) % 256 ^ L.ptr_size ∧
        read_next_ptr L c2.raw_data (total_size (rs.take i))
          = (c2.raw_data_addr + total_size (rs.take (i + 1))) % 256 ^ L.ptr_size)) ∧
    (rs ≠ [] → total_size rs < UINT32_RANGE →
      ∃ c1 c2, StructChainer.create_chain L b addr1 = .ok c1 ∧
        StructChainer.create_chain L b addr2 = .ok c2) := by
  obtain ⟨hm, hs, _⟩ := staged_records_have_header L T rs ids b happ
  have hk : rs.length % UINT32_RANGE ≤ rs.length := Nat.mod_le _ _
  refine ⟨⟨hm, hs⟩, ?_, ?_, ?_⟩
  · intro r rest hrs
    have hpos : r.bytes.length ≠ 0 := by
      have h1 := r.has_header
      have h2 := L.ptr_size_pos
      rw [r.size_eq]
      omega
    unfold StructChainer.get_root_struct anvil_assert
    rw [hm, hrs]
    simp [hpos]
  · intro c1 c2 h1 h2
    obtain ⟨_, _, hraw1, ha1, _⟩ := chain_of_builder L T rs ids b addr1 c1 happ h1
    obtain ⟨_, _, hraw2, ha2, _⟩ := chain_of_builder L T rs ids b addr2 c2 happ h2
    have hW := window_header L rs (rs.length % UINT32_RANGE)
    refine ⟨?_, ?_, ?_⟩
    · rw [hraw1, hraw2, List.length_append, List.length_append,
        linked_length L addr1 _ hW, linked_length L addr2 _ hW]
    · intro j hout
      rw [hraw1, hraw2]
      apply closed_getElem_outside L addr1 addr2 _ _ hW j
      intro i hi
      rw [window_length rs _ hk] at hi
      rw [window_sum rs _ i (by omega)]
      exact hout i hi
    · intro i hi
      have hlen : i < rs.length := by omega
      have hn1 := chain_record_next_ptr L addr1 rs _ hk
        (List.replicate (b.m_structs_size - total_size (rs.take (rs.length % UINT32_RANGE))) 0)
        i (by omega) hlen
      have hn2 := chain_record_next_ptr L addr2 rs _ hk
        (List.replicate (b.m_structs_size - total_size (rs.take (rs.length % UINT32_RANGE))) 0)
        i (by omega) hlen
      rw [if_neg (by omega)] at hn1 hn2
      rw [hraw1, hraw2, hn1, hn2, ha1, ha2, total_size_take_succ rs i hlen,
        Nat.add_assoc, Nat.add_assoc]
      exact ⟨rfl, rfl⟩
  · intro hne hsize
    exact ⟨_, _, create_chain_of_append_structs L T rs ids b addr1 happ hne hsize,
      create_chain_of_append_structs L T rs ids b addr2 happ hne hsize⟩

/-- Witness of C13: the builder of the scenario finalized at 0x1000 and at 0x5000 gives two
buffers of 48 bytes; the forward pointer of record A is 0x1010 in the first and 0x5010 in
the second. -/
theorem repeated_finalization_witness :
    StructChainer.append_structs layout32 tyA StructChainer.ctor scenario
      = .ok ([0, 16, 40], scenario_builder) ∧
    scenario_builder.get_root_struct = .ok recA.bytes ∧
    ∃ c1 c2, StructChainer.create_chain layout32 scenario_builder 0x1000 = .ok c1 ∧
      StructChainer.create_chain layout32 scenario_builder 0x5000 = .ok c2 ∧
      c1.raw_data.length = c2.raw_data.length ∧
      c1.raw_data[8]? = c2.raw_data[8]? ∧
      read_next_ptr layout32 c1.raw_data 0 = 0x1010 ∧
      read_next_ptr layout32 c2.raw_data 0 = 0x5010 := by
  obtain ⟨_, hroot, hsame, hex⟩ := repeated_finalization layout32 tyA scenario [0, 16, 40]
    scenario_builder 0x1000 0x5000 rfl
  obtain ⟨c1, c2, h1, h2⟩ := hex (List.cons_ne_nil _ _) (by decide)
  obtain ⟨hlen, _, _⟩ := hsame c1 c2 h1 h2
  have e1 : StructChainer.create_chain layout32 scenario_builder 0x1000 = .ok scenario_chain := rfl
  have e2 : StructChainer.create_chain layout32 scenario_builder 0x5000
      = .ok ⟨linked layout32 0x5000 0 scenario_builder.m_structs, 0x5000, 0x5000⟩ := rfl
  rw [e1] at h1
  rw [e2] at h2
  injection h1 with h1
  injection h2 with h2
  subst h1 h2
  exact ⟨rfl, hroot recA [recB, recC] rfl, _, _, e1, e2, hlen, by decide, by decide, by decide⟩

/-! ## The claims on ids, frame, root and walk -/

theorem total_size_take_mono {L : HeaderLayout} (rs : List (Record L)) (i j : Nat) (hij : i ≤ j) :
    total_size (rs.take i) ≤ total_size (rs.take j) := by
  have := total_size_take_le (rs.take j) i
  rw [List.take_take, Nat.min_eq_left hij] at this
  exact this

theorem total_size_take_lt {L : HeaderLayout} (rs : List (Record L)) (i j : Nat) (hij : i < j)
    (hj : j ≤ rs.length) : total_size (rs.take i) < total_size (rs.take j) := by
  have hi : i < rs.length := by omega
  have h1 := total_size_take_succ rs i hi
  have h2 := total_size_take_mono rs (i + 1) j (by omega)
  have h3 := rs[i].has_header
  have h4 := L.ptr_size_pos
  have h5 : rs[i].sizeof = rs[i].ty.size := rfl
  omega

/-- The ids that `append_structs` returns are the offsets of the records, as long as the
offsets are below 2^32. -/
theorem ids_are_offsets (L : HeaderLayout) (T : CType) (rs : List (Record L))
    (ids : List StructID) (b : StructChainer)
    (happ : StructChainer.append_structs L T StructChainer.ctor rs = .ok (ids, b))
    (i : Nat) (hi : i < rs.length) (hsize : total_size (rs.take i) < UINT32_RANGE) :
    ids[i]? = some (total_size (rs.take i)) := by
  obtain ⟨_, _, _, h4, _⟩ := append_structs_spec L T rs StructChainer.ctor ids b (by decide) happ
  have h := h4 i hi
  simp only [StructChainer.ctor, Nat.zero_add] at h
  rw [h, Nat.mod_eq_of_lt hsize]

/-- C14 (amended): the ids returned by two different successful appends on one builder
are different, the later one being the larger, as long as the records appended before the
later of the two take less than 2^32 bytes in total. -/
theorem ids_distinct_below_wrap (L : HeaderLayout) (T : CType) (rs : List (Record L))
    (ids : List StructID) (b : StructChainer)
    (happ : StructChainer.append_structs L T StructChainer.ctor rs = .ok (ids, b))
    (i j : Nat) (hij : i < j) (hj : j < rs.length)
    (hsize : total_size (rs.take j) < UINT32_RANGE) :
    ids[i]? ≠ ids[j]? ∧
    ∃ a c : Nat, ids[i]? = some a ∧ ids[j]? = some c ∧ a < c := by
  have hlt := total_size_take_lt rs i j hij (by omega)
  have hi := ids_are_offsets L T rs ids b happ i (by omega) (by omega)
  have hj' := ids_are_offsets L T rs ids b happ j hj hsize
  refine ⟨?_, _, _, hi, hj', hlt⟩
  rw [hi, hj']
  intro h
  have := Option.some.inj h
  omega

/-- Witness of C14: in the scenario the first and the third id are 0 and 40. -/
theorem ids_distinct_below_wrap_witness :
    StructChainer.append_structs layout32 tyA StructChainer.ctor scenario
      = .ok ([0, 16, 40], scenario_builder) ∧
    (0 : Nat) < 2 ∧ 2 < scenario.length ∧ total_size (scenario.take 2) < UINT32_RANGE ∧
    ([0, 16, 40] : List StructID)[0]? ≠ ([0, 16, 40] : List StructID)[2]? :=
  ⟨rfl, by decide, by decide, by decide,
    (ids_distinct_below_wrap layout32 tyA scenario [0, 16, 40] scenario_builder rfl 0 2
      (by decide) (by decide) (by decide)).1⟩

/-- Counterexample to C14 as stated: three successful appends of records of 2^31 bytes
return the ids 0, 2^31 and 0: the first and the third append get the same id. -/
theorem ids_distinct_counterexample :
    ∃ ids b, StructChainer.append_structs layout64 tyHuge StructChainer.ctor
        [recHuge, recHuge, recHuge] = .ok (ids, b) ∧
      ids.length = 3 ∧ ids[0]? = some 0 ∧ ids[2]? = some 0 := by
  have hp : recHuge.pNext = 0 := zero_record_pNext _ _ _
  have hs : recHuge.sizeof = 2 ^ 31 := rfl
  refine ⟨[0, 2 ^ 31, 0], ⟨[recHuge.bytes, recHuge.bytes, recHuge.bytes], 2 ^ 31⟩, ?_, rfl, rfl, rfl⟩
  simp only [StructChainer.append_structs, append_struct_eq, hp, hs, StructChainer.ctor, tyHuge,
    UINT32_RANGE]
  norm_num

theorem bytes_sum_eq_total {L : HeaderLayout} (rs : List (Record L)) (i : Nat) :
    (((rs.map Record.bytes).take i).map List.length).sum = total_size (rs.take i) := by
  rw [← List.map_take, map_length_bytes]
  rfl

/-- C15 (amended): when the appended records take less than 2^32 bytes in total, the
buffer of the chain that `create_chain` returns has the length of the concatenation, in
append order, of the appended records' bytes, and every byte of it that is not inside the
forward-pointer field of a record that has a successor is the corresponding byte of that
concatenation (so the type tags and all bytes of the last record are those appended). -/
theorem patch_frame (L : HeaderLayout) (T : CType) (rs : List (Record L))
    (ids : List StructID) (b : StructChainer) (addr : Nat)
    (happ : StructChainer.append_structs L T StructChainer.ctor rs = .ok (ids, b))
    (hne : rs ≠ []) (hsize : total_size rs < UINT32_RANGE) :
    ∃ c, StructChainer.create_chain L b addr = .ok c ∧
      c.raw_data.length = (rs.map Record.bytes).flatten.length ∧
      ∀ j : Nat,
        (∀ i, i + 1 < rs.length →
          ¬ (total_size (rs.take i) + L.next_off ≤ j ∧
             j < total_size (rs.take i) + L.next_off + L.ptr_size)) →
        c.raw_data[j]? = (rs.map Record.bytes).flatten[j]? := by
  have hhdr : ∀ s ∈ rs.map Record.bytes, L.next_off + L.ptr_size ≤ s.length := by
    intro s hs
    obtain ⟨r, _, rfl⟩ := List.mem_map.mp hs
    rw [r.size_eq]; exact r.has_header
  refine ⟨_, create_chain_of_append_structs L T rs ids b addr happ hne hsize, ?_, ?_⟩
  · simp only []
    rw [linked_length L addr _ hhdr, List.length_flatten]
  · intro j hout
    simp only []
    apply linked_getElem_outside L addr _ hhdr 0 j
    intro i hi
    rw [bytes_sum_eq_total]
    exact hout i (by simpa using hi)

/-- Witness of C15: in the chain of the scenario the type tag of record B (byte 16) and
the last byte of record C (byte 47) are the appended ones. -/
theorem patch_frame_witness :
    StructChainer.append_structs layout32 tyA StructChainer.ctor scenario
      = .ok ([0, 16, 40], scenario_builder) ∧
    scenario ≠ [] ∧ total_size scenario < UINT32_RANGE ∧
    ∃ c, StructChainer.create_chain layout32 scenario_builder 0x1000 = .ok c ∧
      c.raw_data.length = 48 ∧ c.raw_data[16]? = some 2 ∧ c.raw_data[47]? = some 0 := by
  refine ⟨rfl, List.cons_ne_nil _ _, by decide, ?_⟩
  obtain ⟨c, hc, hlen, hbytes⟩ := patch_frame layout32 tyA scenario [0, 16, 40] scenario_builder
    0x1000 rfl (List.cons_ne_nil _ _) (by decide)
  refine ⟨c, hc, hlen, ?_, ?_⟩
  · rw [hbytes 16 (by
      intro i hi
      have hi3 : i + 1 < 3 := hi
      have hi2 : i < 2 := by omega
      interval_cases i <;> decide)]
    rfl
  · rw [hbytes 47 (by
      intro i hi
      have hi3 : i + 1 < 3 := hi
      have hi2 : i < 2 := by omega
      interval_cases i <;> decide)]
    rfl

theorem flatten_replicate_length {L : HeaderLayout} (n : Nat) (r : Record L) :
    ((List.replicate n r).map Record.bytes).flatten.length = n * r.sizeof := by
  rw [List.length_flatten, map_length_bytes]
  exact total_size_replicate n r

/-- Counterexample to C15 as stated: with 2^32 + 1 appended 16-byte records `create_chain`
returns a chain whose 16-byte buffer is not the concatenation of the appended records'
bytes, which has 16 * (2^32 + 1) bytes. -/
theorem patch_frame_counterexample :
    ∃ ids b c,
      StructChainer.append_structs layout64 tyRoot64 StructChainer.ctor
        (List.replicate (2 ^ 32 + 1) recRoot64) = .ok (ids, b) ∧
      StructChainer.create_chain layout64 b 0x10000 = .ok c ∧
      c.raw_data = recRoot64.bytes ∧
      ((List.replicate (2 ^ 32 + 1) recRoot64).map Record.bytes).flatten.length
        = (2 ^ 32 + 1) * 16 := by
  obtain ⟨ids, h⟩ := append_structs_replicate layout64 tyRoot64 recRoot64 (2 ^ 32 + 1)
    (zero_record_pNext _ _ _) rfl
  have hsz : (2 ^ 32 + 1) * recRoot64.sizeof % UINT32_RANGE = recRoot64.bytes.length := by
    decide
  rw [hsz] at h
  have hc := create_chain_count_wraps layout64 recRoot64.bytes (2 ^ 32 + 1) 0x10000
    (by decide) (by decide)
  exact ⟨ids, _, _, h, hc, rfl, flatten_replicate_length (2 ^ 32 + 1) recRoot64⟩

/-- When the 32-bit record count wraps to zero, no record is copied. -/
theorem create_chain_count_zero (L : HeaderLayout) (self : StructChainer) (addr : Nat)
    (hhdr : ∀ s ∈ self.m_structs, L.next_off + L.ptr_size ≤ s.length)
    (hne : self.m_structs ≠ [])
    (hk : self.m_structs.length % UINT32_RANGE = 0)
    (hsz : self.m_structs_size ≠ 0) :
    StructChainer.create_chain L self addr
      = .ok ⟨List.replicate self.m_structs_size 0, addr, addr⟩ := by
  have h := create_chain_closed_ok L self addr hhdr hne (by rw [hk]; simp) hsz
  rw [h, hk]
  simp [linked]

theorem append_structs_replicate_from (L : HeaderLayout) (T : CType) (self : StructChainer)
    (r : Record L) (n : Nat) (hself : self.m_structs_size < UINT32_RANGE)
    (hp : r.pNext = 0) (hs : r.sizeof = T.size) :
    ∃ ids, StructChainer.append_structs L T self (List.replicate n r)
      = .ok (ids, ⟨self.m_structs ++ List.replicate n r.bytes,
          (self.m_structs_size + n * r.sizeof) % UINT32_RANGE⟩) := by
  obtain ⟨ids, b, h⟩ := append_structs_succeeds L T (List.replicate n r)
    (fun x hx => by rw [List.eq_of_mem_replicate hx]; exact ⟨hp, hs⟩) self
  obtain ⟨h1, h2, _, _, _⟩ := append_structs_spec L T _ self ids b hself h
  refine ⟨ids, ?_⟩
  rw [h]
  obtain ⟨ms, sz⟩ := b
  simp only [List.map_replicate, total_size_replicate] at h1 h2
  rw [h1, h2]

/-- A tagged root record, a 24-byte extension record and `n` more root records are all
accepted by the empty builder. -/
theorem append_structs_mixed (n : Nat) :
    ∃ ids, StructChainer.append_structs layout64 tyRoot64 StructChainer.ctor
        (recTagged64 :: recExt64 :: List.replicate n recRoot64)
      = .ok (ids, ⟨recTagged64.bytes :: recExt64.bytes :: List.replicate n recRoot64.bytes,
          (40 + n * 16) % UINT32_RANGE⟩) := by
  have hp0 : recTagged64.pNext = 0 := by decide
  have hp1 : recExt64.pNext = 0 := zero_record_pNext _ _ _
  obtain ⟨ids, h⟩ := append_structs_replicate_from layout64 tyRoot64
    ⟨[recTagged64.bytes, recExt64.bytes], 40⟩ recRoot64 n (by decide)
    (zero_record_pNext _ _ _) rfl
  refine ⟨0 :: 16 :: ids, ?_⟩
  have e0 : StructChainer.append_struct layout64 tyRoot64 StructChainer.ctor recTagged64
      = (.ok 0, ⟨[recTagged64.bytes], 16⟩) := by
    rw [append_struct_eq, if_neg (by rw [hp0]; decide)]
    rfl
  have e1 : StructChainer.append_struct layout64 tyRoot64 ⟨[recTagged64.bytes], 16⟩ recExt64
      = (.ok 16, ⟨[recTagged64.bytes, recExt64.bytes], 40⟩) := by
    rw [append_struct_eq, if_neg (by rw [hp1]; decide)]
    rfl
  rw [StructChainer.append_structs, e0]
  simp only []
  rw [StructChainer.append_structs, e1]
  simp only []
  rw [h]
  rfl

/-- When their number is a multiple of 2^32 and their sizes sum to 8 modulo 2^32, the
chain built from these records is a buffer of 8 zero bytes. -/
theorem create_chain_mixed (n addr : Nat) (hn : (n + 2) % UINT32_RANGE = 0)
    (hsz : (40 + n * 16) % UINT32_RANGE = 8) :
    ∃ ids b, StructChainer.append_structs layout64 tyRoot64 StructChainer.ctor
        (recTagged64 :: recExt64 :: List.replicate n recRoot64) = .ok (ids, b) ∧
      StructChainer.create_chain layout64 b addr = .ok ⟨List.replicate 8 0, addr, addr⟩ := by
  obtain ⟨ids, h⟩ := append_structs_mixed n
  rw [hsz] at h
  have hc := create_chain_count_zero layout64
    ⟨recTagged64.bytes :: recExt64.bytes :: List.replicate n recRoot64.bytes, 8⟩ addr
    (by
      intro s hs
      rcases List.mem_cons.mp hs with rfl | hs
      · decide
      · rcases List.mem_cons.mp hs with rfl | hs
        · decide
        · rw [List.eq_of_mem_replicate hs]; decide)
    (List.cons_ne_nil _ _)
    (by
      simp only [List.length_cons, List.length_replicate]
      exact hn)
    (show (8 : Nat) ≠ 0 by decide)
  exact ⟨ids, _, h, hc⟩

/-- C16 (amended): for every chain that `create_chain` returns for a builder whose number
of records is not a multiple of 2^32 (in particular for every non-empty builder of less
than 2^32 bytes, for which a chain is returned), `get_root_struct()`, `root_struct_ptr` and
`get_struct_with_id(0)` all are the address of byte 0 of the buffer, and the record there
is the first record appended, unchanged outside its forward-pointer field. -/
theorem root_at_offset_zero (L : HeaderLayout) (T : CType) (rs : List (Record L))
    (ids : List StructID) (b : StructChainer) (addr : Nat)
    (happ : StructChainer.append_structs L T StructChainer.ctor rs = .ok (ids, b))
    (hcount : rs.length % UINT32_RANGE ≠ 0) :
    (∀ c : StructChain, StructChainer.create_chain L b addr = .ok c →
      c.get_root_struct = .ok c.raw_data_addr ∧
      c.root_struct_ptr = c.raw_data_addr ∧
      c.get_struct_with_id 0 = .ok c.raw_data_addr ∧
      ∀ (r : Record L) (rest : List (Record L)), rs = r :: rest →
        (c.read_bytes c.raw_data_addr r.sizeof).length = r.sizeof ∧
        (c.read_bytes c.raw_data_addr r.sizeof).take L.next_off = r.bytes.take L.next_off ∧
        (c.read_bytes c.raw_data_addr r.sizeof).drop (L.next_off + L.ptr_size)
          = r.bytes.drop (L.next_off + L.ptr_size)) ∧
    (rs ≠ [] → total_size rs < UINT32_RANGE →
      ∃ c, StructChainer.create_chain L b addr = .ok c) := by
  have hk : rs.length % UINT32_RANGE ≤ rs.length := Nat.mod_le _ _
  constructor
  · intro c hc
    obtain ⟨hne, _, hraw, ha, hr⟩ := chain_of_builder L T rs ids b addr c happ hc
    have hlen : 0 < rs.length := List.length_pos.mpr hne
    have hslice := chain_record_slice L addr rs _ hk
      (List.replicate (b.m_structs_size - total_size (rs.take (rs.length % UINT32_RANGE))) 0)
      0 (by omega) hlen
    rw [← hraw] at hslice
    simp only [List.take_zero, total_size_nil, List.drop_zero, Nat.add_zero, Nat.zero_add]
      at hslice
    have hh : L.next_off + L.ptr_size ≤ rs[0].bytes.length := by
      rw [rs[0].size_eq]; exact rs[0].has_header
    have hptr := L.ptr_size_pos
    have hsl : (c.raw_data.take rs[0].sizeof).length = rs[0].sizeof := by
      rw [hslice]
      split
      · exact rs[0].size_eq
      · rw [patch_next_length L _ _ hh]; exact rs[0].size_eq
    have hpos : c.raw_data.length ≠ 0 := by
      rw [List.length_take] at hsl
      have h1 := rs[0].has_header
      have h2 : rs[0].sizeof = rs[0].ty.size := rfl
      omega
    refine ⟨?_, by rw [hr, ha], ?_, ?_⟩
    · unfold StructChain.get_root_struct
      rw [if_neg hpos]
    · unfold StructChain.get_struct_with_id anvil_assert
      have : 0 < c.raw_data.length := Nat.pos_of_ne_zero hpos
      simp [this, hpos]
    · intro r rest hrs
      subst hrs
      simp only [List.getElem_cons_zero] at hslice hsl hh
      unfold StructChain.read_bytes
      rw [Nat.sub_self, List.drop_zero]
      refine ⟨hsl, ?_, ?_⟩
      · rw [hslice]
        split
        · rfl
        · exact patch_next_take L _ _ hh
      · rw [hslice]
        split
        · rfl
        · exact patch_next_drop L _ _ hh
  · intro hne hsize
    exact ⟨_, create_chain_of_append_structs L T rs ids b addr happ hne hsize⟩

/-- Witness of C16: in the chain of the scenario the root pointer is the buffer address
0x1000 and the first four bytes there are the type tag of record A. -/
theorem root_at_offset_zero_witness :
    StructChainer.append_structs layout32 tyA StructChainer.ctor scenario
      = .ok ([0, 16, 40], scenario_builder) ∧
    scenario.length % UINT32_RANGE ≠ 0 ∧
    StructChainer.create_chain layout32 scenario_builder 0x1000 = .ok scenario_chain ∧
    scenario_chain.get_root_struct = .ok 0x1000 ∧
    scenario_chain.get_struct_with_id 0 = .ok 0x1000 ∧
    (scenario_chain.read_bytes 0x1000 recA.sizeof).take 4 = recA.bytes.take 4 := by
  obtain ⟨h, _⟩ := root_at_offset_zero layout32 tyA scenario [0, 16, 40] scenario_builder
    0x1000 rfl (by decide)
  obtain ⟨h1, _, h3, h4⟩ := h scenario_chain rfl
  exact ⟨rfl, by decide, rfl, h1, h3, (h4 recA [recB, recC] rfl).2.1⟩

/-- Counterexample to C16 as stated: for a tagged root record, a 24-byte extension record
and 2^32 - 2 further root records the 32-bit record count is 0 and the running total 8:
`create_chain` returns a chain of 8 zero bytes, so the bytes at its root pointer are not
those of the first record appended. -/
theorem root_at_offset_zero_counterexample :
    ∃ ids b c,
      StructChainer.append_structs layout64 tyRoot64 StructChainer.ctor
        (recTagged64 :: recExt64 :: List.replicate (2 ^ 32 - 2) recRoot64) = .ok (ids, b) ∧
      StructChainer.create_chain layout64 b 0x10000 = .ok c ∧
      c.get_root_struct = .ok 0x10000 ∧
      c.raw_data = List.replicate 8 0 ∧
      (c.read_bytes 0x10000 recTagged64.sizeof).take layout64.next_off
        ≠ recTagged64.bytes.take layout64.next_off := by
  obtain ⟨ids, b, h, hc⟩ := create_chain_mixed (2 ^ 32 - 2) 0x10000 (by decide) (by decide)
  exact ⟨ids, b, _, h, hc, rfl, rfl, by decide⟩

/-- The forward pointer of the record of index `i` in the chained layout of all records. -/
theorem natural_next_ptr (L : HeaderLayout) (addr : Nat) (rs : List (Record L)) (i : Nat)
    (hi : i < rs.length) :
    read_next_ptr L (linked L addr 0 (rs.map Record.bytes)) (total_size (rs.take i))
      = if i + 1 = rs.length then rs[i].pNext
        else (addr + total_size (rs.take i) + rs[i].sizeof) % 256 ^ L.ptr_size := by
  have h := chain_record_next_ptr L addr rs rs.length (Nat.le_refl _) [] i hi hi
  rw [List.take_length, List.append_nil] at h
  exact h

/-- The walk that starts at the record of index `i` visits the records from `i` on. -/
theorem chain_walk_from (L : HeaderLayout) (addr : Nat) (rs : List (Record L)) (c : StructChain)
    (hraw : c.raw_data = linked L addr 0 (rs.map Record.bytes))
    (ha : c.raw_data_addr = addr)
    (hnull : ∀ r ∈ rs, r.pNext = 0)
    (haddr : addr + total_size rs < 256 ^ L.ptr_size) :
    ∀ (m i : Nat), i + m = rs.length → 0 < m →
      chain_walk L c m (addr + total_size (rs.take i))
        = some ((List.range' i m).map (fun n => total_size (rs.take n))) := by
  have hhdr : ∀ s ∈ rs.map Record.bytes, L.next_off + L.ptr_size ≤ s.length := by
    intro s hs
    obtain ⟨r, _, rfl⟩ := List.mem_map.mp hs
    rw [r.size_eq]; exact r.has_header
  have hlen : c.raw_data.length = total_size rs := by
    rw [hraw, linked_length L addr _ hhdr, map_length_bytes]
    rfl
  intro m
  induction m with
  | zero => intro i _ h; omega
  | succ m ih =>
    intro i him _
    have hi : i < rs.length := by omega
    have hend := record_end_le_total rs i hi
    have hh := rs[i].has_header
    have hsz : rs[i].sizeof = rs[i].ty.size := rfl
    have hptr := L.ptr_size_pos
    have hnext := natural_next_ptr L addr rs i hi
    rw [← hraw] at hnext
    unfold chain_walk
    rw [ha, if_neg (by omega), Nat.add_sub_cancel_left, if_neg (by omega)]
    simp only [hnext]
    by_cases hl : i + 1 = rs.length
    · have hm : m = 0 := by omega
      subst hm
      rw [if_pos hl, if_pos (hnull _ (List.getElem_mem hi))]
      rfl
    · rw [if_neg hl]
      have hmod : (addr + total_size (rs.take i) + rs[i].sizeof) % 256 ^ L.ptr_size
          = addr + total_size (rs.take (i + 1)) := by
        rw [total_size_take_succ rs i hi, Nat.add_assoc]
        exact Nat.mod_eq_of_lt (by omega)
      have hne0 : addr + total_size (rs.take (i + 1)) ≠ 0 := by
        rw [total_size_take_succ rs i hi]
        omega
      rw [hmod, if_neg hne0, ih (i + 1) (by omega) (by omega), List.range'_succ]
      rfl

/-- Below 2^32 bytes the returned ids are the list of the records' offsets. -/
theorem ids_eq_offsets (L : HeaderLayout) (T : CType) (rs : List (Record L))
    (ids : List StructID) (b : StructChainer)
    (happ : StructChainer.append_structs L T StructChainer.ctor rs = .ok (ids, b))
    (hsize : total_size rs < UINT32_RANGE) :
    ids = (List.range' 0 rs.length).map (fun n => total_size (rs.take n)) := by
  obtain ⟨_, _, h3, _, _⟩ := append_structs_spec L T rs StructChainer.ctor ids b (by decide) happ
  apply List.ext_getElem?
  intro n
  by_cases hn : n < rs.length
  · have hle := total_size_take_le rs n
    rw [ids_are_offsets L T rs ids b happ n hn (by omega), List.getElem?_map,
      List.getElem?_range' 0 1 hn]
    simp
  · rw [List.getElem?_eq_none (by omega), List.getElem?_eq_none]
    rw [List.length_map, List.length_range']
    omega

/-- C17 (amended): when the appended records take less than 2^32 bytes in total and the
buffer lies inside the address space, the chain that `create_chain` returns for a builder
of n >= 1 records is such that the walk that starts at the buffer address and follows the
forward pointers visits exactly n records, at the ids that `append_struct` returned, in
append order, and stops at an unset pointer; every visited record lies inside the buffer
and none is visited twice. -/
theorem chain_walk_visits_all (L : HeaderLayout) (T : CType) (rs : List (Record L))
    (ids : List StructID) (b : StructChainer) (addr : Nat)
    (happ : StructChainer.append_structs L T StructChainer.ctor rs = .ok (ids, b))
    (hne : rs ≠ []) (hsize : total_size rs < UINT32_RANGE)
    (haddr : addr + total_size rs < 256 ^ L.ptr_size) :
    ∃ c, StructChainer.create_chain L b addr = .ok c ∧
      chain_walk L c rs.length c.raw_data_addr = some ids ∧
      ids.length = rs.length ∧
      (∀ id ∈ ids, id + L.next_off + L.ptr_size ≤ c.raw_data.length) ∧
      ids.Nodup := by
  obtain ⟨_, _, h3, _, hnull⟩ :=
    append_structs_spec L T rs StructChainer.ctor ids b (by decide) happ
  obtain ⟨c, hc, ha, _, hlen, _⟩ := chain_layout L T rs ids b addr happ hne hsize
  have hraw : c.raw_data = linked L addr 0 (rs.map Record.bytes) := by
    have := create_chain_of_append_structs L T rs ids b addr happ hne hsize
    rw [this] at hc
    injection hc with hc
    rw [← hc]
  have hids := ids_eq_offsets L T rs ids b happ hsize
  have hpos : 0 < rs.length := List.length_pos.mpr hne
  have hwalk := chain_walk_from L addr rs c hraw ha hnull haddr rs.length 0 (by omega) hpos
  simp only [List.take_zero, total_size_nil, Nat.add_zero] at hwalk
  refine ⟨c, hc, ?_, h3, ?_, ?_⟩
  · rw [ha, hwalk, ← hids]
  · intro id hid
    rw [hids] at hid
    obtain ⟨n, hn, rfl⟩ := List.mem_map.mp hid
    have hn' : n < rs.length := by
      have := List.mem_range'_1.mp hn
      omega
    have hend := record_end_le_total rs n hn'
    have hh := rs[n].has_header
    have hsz : rs[n].sizeof = rs[n].ty.size := rfl
    show total_size (rs.take n) + L.next_off + L.ptr_size ≤ c.raw_data.length
    omega
  · rw [List.nodup_iff_getElem?_ne_getElem?]
    intro i j hij hj
    rw [h3] at hj
    have hle := total_size_take_le rs j
    have hlt := total_size_take_lt rs i j hij (by omega)
    rw [ids_are_offsets L T rs ids b happ i (by omega) (by omega),
      ids_are_offsets L T rs ids b happ j hj (by omega)]
    intro h
    have := Option.some.inj h
    omega

/-- Witness of C17: the walk over the chain of the scenario visits the offsets 0, 16, 40. -/
theorem chain_walk_visits_all_witness :
    StructChainer.append_structs layout32 tyA StructChainer.ctor scenario
      = .ok ([0, 16, 40], scenario_builder) ∧
    scenario ≠ [] ∧ total_size scenario < UINT32_RANGE ∧
    0x1000 + total_size scenario < 256 ^ layout32.ptr_size ∧
    ∃ c, StructChainer.create_chain layout32 scenario_builder 0x1000 = .ok c ∧
      chain_walk layout32 c 3 c.raw_data_addr = some [0, 16, 40] := by
  refine ⟨rfl, List.cons_ne_nil _ _, by decide, by decide, ?_⟩
  obtain ⟨c, hc, hw, _⟩ := chain_walk_visits_all layout32 tyA scenario [0, 16, 40]
    scenario_builder 0x1000 rfl (List.cons_ne_nil _ _) (by decide) (by decide)
  exact ⟨c, hc, hw⟩

theorem chain_walk_single (fuel addr : Nat) :
    chain_walk layout64 ⟨recRoot64.bytes, addr, addr⟩ (fuel + 1) addr = some [0] := by
  unfold chain_walk
  simp only [Nat.lt_irrefl, if_false, Nat.sub_self]
  rw [if_neg (show ¬ recRoot64.bytes.length < 0 + layout64.next_off + layout64.ptr_size by decide),
    if_pos (show read_next_ptr layout64 recRoot64.bytes 0 = 0 by decide)]

/-- Counterexample to C17 as stated: the builder holds n = 2^32 + 1 records of 16 bytes, each
appended with an unset forward pointer, and `create_chain` returns a chain; the walk from
its buffer address visits a single record, at offset 0, and stops. -/
theorem chain_walk_counterexample :
    ∃ ids b c,
      StructChainer.append_structs layout64 tyRoot64 StructChainer.ctor
        (List.replicate (2 ^ 32 + 1) recRoot64) = .ok (ids, b) ∧
      b.m_structs.length = 2 ^ 32 + 1 ∧
      StructChainer.create_chain layout64 b 0x10000 = .ok c ∧
      chain_walk layout64 c (2 ^ 32 + 1) c.raw_data_addr = some [0] := by
  obtain ⟨ids, h⟩ := append_structs_replicate layout64 tyRoot64 recRoot64 (2 ^ 32 + 1)
    (zero_record_pNext _ _ _) rfl
  have hsz : (2 ^ 32 + 1) * recRoot64.sizeof % UINT32_RANGE = recRoot64.bytes.length := by
    decide
  rw [hsz] at h
  have hc := create_chain_count_wraps layout64 recRoot64.bytes (2 ^ 32 + 1) 0x10000
    (by decide) (by decide)
  exact ⟨ids, _, _, h, List.length_replicate _ _, hc, chain_walk_single (2 ^ 32) 0x10000⟩

theorem get_struct_with_id_eq (c : StructChain) (id : Nat) :
    c.get_struct_with_id id
      = (if id < c.raw_data.length then .ok (c.raw_data_addr + id) else .error .OutOfBounds) := by
  unfold StructChain.get_struct_with_id anvil_assert
  by_cases h : id < c.raw_data.length
  · have h2 : c.raw_data.length ≠ 0 := by omega
    simp [h, h2]
  · simp [h]

/-- C18: when the appended records take less than 2^32 bytes in total (every record of the
embedding holds a header, hence has positive size), `create_chain` returns a chain, and
every id that `append_struct` returned is below the length of its buffer, so that
`get_struct_with_id` on it does not fail with OutOfBounds, and the id plus the size of its
record does not exceed the length of the buffer. -/
theorem issued_ids_valid (L : HeaderLayout) (T : CType) (rs : List (Record L))
    (ids : List StructID) (b : StructChainer) (addr : Nat)
    (happ : StructChainer.append_structs L T StructChainer.ctor rs = .ok (ids, b))
    (hne : rs ≠ []) (hsize : total_size rs < UINT32_RANGE) :
    (∀ r ∈ rs, 0 < r.sizeof) ∧
    ∃ c, StructChainer.create_chain L b addr = .ok c ∧
      ∀ (i : Nat) (hi : i < rs.length), ∃ id : Nat,
        ids[i]? = some id ∧
        id < c.raw_data.length ∧
        c.get_struct_with_id id = .ok (c.raw_data_addr + id) ∧
        c.get_struct_with_id id ≠ .error .OutOfBounds ∧
        id + rs[i].sizeof ≤ c.raw_data.length := by
  have hposr : ∀ r ∈ rs, 0 < r.sizeof := by
    intro r _
    have h1 := r.has_header
    have h2 := L.ptr_size_pos
    have h3 : r.sizeof = r.ty.size := rfl
    omega
  obtain ⟨c, hc, _, _, hlen, _⟩ := chain_layout L T rs ids b addr happ hne hsize
  refine ⟨hposr, c, hc, ?_⟩
  intro i hi
  have hend := record_end_le_total rs i hi
  have hpos := hposr _ (List.getElem_mem hi)
  have hid := ids_are_offsets L T rs ids b happ i hi (by omega)
  have hlt : total_size (rs.take i) < c.raw_data.length := by omega
  have hget := (get_struct_with_id_eq c (total_size (rs.take i)))
  rw [if_pos hlt] at hget
  refine ⟨_, hid, hlt, hget, ?_, by omega⟩
  rw [hget]
  simp

/-- Witness of C18: the ids 0, 16 and 40 of the scenario are below the buffer length 48, and
40 + 8 does not exceed it. -/
theorem issued_ids_valid_witness :
    StructChainer.append_structs layout32 tyA StructChainer.ctor scenario
      = .ok ([0, 16, 40], scenario_builder) ∧
    scenario ≠ [] ∧ total_size scenario < UINT32_RANGE ∧
    ∃ c, StructChainer.create_chain layout32 scenario_builder 0x1000 = .ok c ∧
      ∃ id : Nat, ([0, 16, 40] : List StructID)[2]? = some id ∧ id < c.raw_data.length ∧
        c.get_struct_with_id id = .ok (c.raw_data_addr + id) ∧
        id + recC.sizeof ≤ c.raw_data.length := by
  refine ⟨rfl, List.cons_ne_nil _ _, by decide, ?_⟩
  obtain ⟨_, c, hc, h⟩ := issued_ids_valid layout32 tyA scenario [0, 16, 40] scenario_builder
    0x1000 rfl (List.cons_ne_nil _ _) (by decide)
  obtain ⟨id, h1, h2, h3, _, h5⟩ := h 2 (by decide)
  exact ⟨c, hc, id, h1, h2, h3, h5⟩

/-- C19: the running total of a builder filled from the empty builder is the sum of the
appended record sizes modulo 2^32; when that sum is below 2^32, `create_chain` (whose write
offset is an unbounded natural number here) ends without any fault, its buffer has exactly
that many bytes, and for every record the write offset, the end of the copied range and the
end of the patched header all lie inside the buffer. -/
theorem finalization_in_bounds (L : HeaderLayout) (T : CType) (rs : List (Record L))
    (ids : List StructID) (b : StructChainer) (addr : Nat)
    (happ : StructChainer.append_structs L T StructChainer.ctor rs = .ok (ids, b)) :
    b.m_structs_size = total_size rs % UINT32_RANGE ∧
    (rs ≠ [] → total_size rs < UINT32_RANGE →
      ∃ c, StructChainer.create_chain L b addr = .ok c ∧
        c.raw_data.length = b.m_structs_size ∧
        c.raw_data.length = total_size rs ∧
        ∀ (i : Nat) (hi : i < rs.length),
          total_size (rs.take i) < c.raw_data.length ∧
          total_size (rs.take i) + rs[i].sizeof ≤ c.raw_data.length ∧
          total_size (rs.take i) + L.next_off + L.ptr_size ≤ c.raw_data.length) := by
  obtain ⟨_, hs, _⟩ := staged_records_have_header L T rs ids b happ
  refine ⟨hs, ?_⟩
  intro hne hsize
  obtain ⟨c, hc, _, _, hlen, _⟩ := chain_layout L T rs ids b addr happ hne hsize
  refine ⟨c, hc, ?_, hlen, ?_⟩
  · rw [hlen, hs, Nat.mod_eq_of_lt hsize]
  · intro i hi
    have hend := record_end_le_total rs i hi
    have h1 := rs[i].has_header
    have h2 := L.ptr_size_pos
    have h3 : rs[i].sizeof = rs[i].ty.size := rfl
    omega

/-- Witness of C19: the builder of the scenario has a running total of 48 and is finalized
into a buffer of 48 bytes. -/
theorem finalization_in_bounds_witness :
    StructChainer.append_structs layout32 tyA StructChainer.ctor scenario
      = .ok ([0, 16, 40], scenario_builder) ∧
    scenario_builder.m_structs_size = total_size scenario % UINT32_RANGE ∧
    ∃ c, StructChainer.create_chain layout32 scenario_builder 0x1000 = .ok c ∧
      c.raw_data.length = 48 := by
  obtain ⟨h1, h2⟩ := finalization_in_bounds layout32 tyA scenario [0, 16, 40] scenario_builder
    0x1000 rfl
  obtain ⟨c, hc, _, hlen, _⟩ := h2 (List.cons_ne_nil _ _) (by decide)
  exact ⟨rfl, h1, c, hc, hlen⟩

/-- The first record that the empty builder accepts has the size of the root type and an
unset forward pointer. -/
theorem first_record_root_sized (L : HeaderLayout) (T : CType) (r : Record L)
    (rest : List (Record L)) (ids : List StructID) (b : StructChainer)
    (happ : StructChainer.append_structs L T StructChainer.ctor (r :: rest) = .ok (ids, b)) :
    r.sizeof = T.size ∧ r.pNext = 0 := by
  obtain ⟨hp, hs, _⟩ := append_structs_cons_ok L T StructChainer.ctor r rest ids b happ
  refine ⟨?_, hp⟩
  by_contra hne
  exact hs ⟨rfl, hne⟩

/-- C20: let a chain returned by `create_chain` be inserted into a collection of the same
root type, its buffer lying inside the address space.  The root copy that the insert
appends is the first `sizeof(StructType)` bytes of the buffer, and the chain itself is owned
by the collection.  When the chain holds at least two records (the 32-bit count `n_structs`
of the builder's records, which is their number below 2^32 records), the forward pointer of
the root copy is the buffer address plus the size of the root record, an address inside the
buffer; when the chain holds a single record, it is unset.  For a non-empty builder of less
than 2^32 bytes the chain is returned and the insert succeeds. -/
theorem snapshot_stays_linked (L : HeaderLayout) (T : CType) (rs : List (Record L))
    (ids : List StructID) (b : StructChainer) (addr : Nat) (coll : StructChainVector)
    (happ : StructChainer.append_structs L T StructChainer.ctor rs = .ok (ids, b)) :
    (∀ (c : StructChain) (coll1 : StructChainVector),
      StructChainer.create_chain L b addr = .ok c →
      StructChainVector.append_struct_chain T coll c = (.ok (), coll1) →
      c.raw_data_addr + T.size < 256 ^ L.ptr_size →
      ∃ root, coll1.root_structs = coll.root_structs ++ [root] ∧
        coll1.get_root_structs = .ok (coll.root_structs ++ [root]) ∧
        coll1.struct_chain_ptrs = coll.struct_chain_ptrs ++ [c] ∧
        root = c.raw_data.take T.size ∧
        (∀ (r : Record L) (rest : List (Record L)), rs = r :: rest → r.sizeof = T.size) ∧
        (2 ≤ rs.length % UINT32_RANGE →
          read_next_ptr L root 0 = c.raw_data_addr + T.size ∧
          c.get_struct_with_id T.size = .ok (c.raw_data_addr + T.size)) ∧
        (rs.length % UINT32_RANGE = 1 → read_next_ptr L root 0 = 0)) ∧
    (rs ≠ [] → total_size rs < UINT32_RANGE →
      ∃ c coll1, StructChainer.create_chain L b addr = .ok c ∧
        StructChainVector.append_struct_chain T coll c = (.ok (), coll1)) := by
  have hk : rs.length % UINT32_RANGE ≤ rs.length := Nat.mod_le _ _
  constructor
  · intro c coll1 hc hins haddr
    obtain ⟨hne, hfit, hraw, ha, _⟩ := chain_of_builder L T rs ids b addr c happ hc
    rw [append_struct_chain_eq] at hins
    by_cases h0 : c.raw_data.length = 0
    · simp [h0] at hins
    by_cases h1 : T.size ≤ c.raw_data.length
    swap
    · simp [h0, h1] at hins
    rw [if_neg h0, if_pos h1] at hins
    injection hins with _ hins
    subst hins
    refine ⟨c.raw_data.take T.size, rfl, ?_, rfl, rfl, ?_, ?_, ?_⟩
    · unfold StructChainVector.get_root_structs
      simp
    · intro r rest hrs
      subst hrs
      exact (first_record_root_sized L T r rest ids b happ).1
    all_goals
      intro hcount
      obtain ⟨r, rest, hrs⟩ := List.exists_cons_of_ne_nil hne
      subst hrs
      obtain ⟨hsz, hp⟩ := first_record_root_sized L T r rest ids b happ
      have hh := r.has_header
      have hszd : r.sizeof = r.ty.size := rfl
      have hptr := L.ptr_size_pos
      have hnext := chain_record_next_ptr L addr (r :: rest) _ hk
        (List.replicate (b.m_structs_size
          - total_size ((r :: rest).take ((r :: rest).length % UINT32_RANGE))) 0)
        0 (by omega) (by simp)
      rw [← hraw] at hnext
      simp only [List.take_zero, total_size_nil, Nat.add_zero, List.getElem_cons_zero,
        Nat.zero_add] at hnext
      have hroot : read_next_ptr L (c.raw_data.take T.size) 0 = read_next_ptr L c.raw_data 0 := by
        rw [read_next_ptr_slice L c.raw_data 0 T.size (by omega), List.drop_zero]
    · rw [if_neg (by omega), hsz, ← ha, Nat.mod_eq_of_lt haddr] at hnext
      refine ⟨by rw [hroot, hnext], ?_⟩
      have hlen : T.size < c.raw_data.length := by
        have h2 : 1 < (r :: rest).length := by omega
        have hmono := total_size_take_mono (r :: rest) 2 _ hcount
        have hs1 : total_size ((r :: rest).take 2)
            = total_size ((r :: rest).take 1) + ((r :: rest)[1]).sizeof :=
          total_size_take_succ (r :: rest) 1 h2
        have hs0 : total_size ((r :: rest).take 1) = r.sizeof := by
          simp [total_size]
        have hh1 := ((r :: rest)[1]).has_header
        have hsz1 : ((r :: rest)[1]).sizeof = ((r :: rest)[1]).ty.size := rfl
        have hl : c.raw_data.length
            = total_size ((r :: rest).take ((r :: rest).length % UINT32_RANGE))
              + (b.m_structs_size
                - total_size ((r :: rest).take ((r :: rest).length % UINT32_RANGE))) := by
          rw [hraw, List.length_append, List.length_replicate,
            linked_length L addr _ (window_header L _ _), map_length_bytes]
          rfl
        omega
      rw [get_struct_with_id_eq, if_pos hlen]
    · rw [if_pos (by omega), hp] at hnext
      rw [hroot, hnext]
  · intro hne hsize
    obtain ⟨c, hc, _, _, hlen, _⟩ := chain_layout L T rs ids b addr happ hne hsize
    obtain ⟨r, rest, hrs⟩ := List.exists_cons_of_ne_nil hne
    subst hrs
    obtain ⟨hsz, _⟩ := first_record_root_sized L T r rest ids b happ
    have hh := r.has_header
    have hszd : r.sizeof = r.ty.size := rfl
    have hptr := L.ptr_size_pos
    have ht : total_size (r :: rest) = r.sizeof + total_size rest := total_size_cons r rest
    refine ⟨c, { root_structs := coll.root_structs ++ [c.raw_data.take T.size]
                 struct_chain_ptrs := coll.struct_chain_ptrs ++ [c] }, hc, ?_⟩
    rw [append_struct_chain_eq, if_neg (by omega), if_pos (by omega)]

/-- Witness of C20: the root copy of the chain of the scenario points to 0x1010, the second
record of the buffer at 0x1000; the root copy of a single-record chain has a null forward
pointer. -/
theorem snapshot_stays_linked_witness :
    StructChainer.append_structs layout32 tyA StructChainer.ctor scenario
      = .ok ([0, 16, 40], scenario_builder) ∧
    StructChainer.create_chain layout32 scenario_builder 0x1000 = .ok scenario_chain ∧
    2 ≤ scenario.length % UINT32_RANGE ∧
    ∃ coll1 root,
      StructChainVector.append_struct_chain tyA StructChainVector.ctor scenario_chain
        = (.ok (), coll1) ∧
      coll1.root_structs = [root] ∧
      read_next_ptr layout32 root 0 = 0x1000 + 16 := by
  obtain ⟨h, _⟩ := snapshot_stays_linked layout32 tyA scenario [0, 16, 40] scenario_builder
    0x1000 StructChainVector.ctor rfl
  obtain ⟨root, h1, _, _, _, _, h6, _⟩ := h scenario_chain
    ⟨[scenario_chain.raw_data.take 16], [scenario_chain]⟩ rfl rfl (by decide)
  exact ⟨rfl, rfl, by decide, _, root, rfl, h1, (h6 (by decide)).1⟩

end Anvil
